import Mathlib

/-!
# libunicode: the transcoding codec of `src/unicode/convert.h` and the property table

A shallow embedding of `unicode::converter<char>`, `converter<char16_t>`,
`converter<char32_t>`, `converter<wchar_t>` and of the `convert_to` driver, of the table lookup
and of `minimum_uint_t` of the table generator, followed by theorems about them.

## Conventions

* A code unit and a codepoint are natural numbers.  A C++ conversion to a fixed width type is
  written as an explicit remainder (`% 256` for `uint8_t`, `% 65536` for `char16_t`,
  `% 4294967296` for `char32_t`).
* An output iterator is the list of units appended so far; `*_output++ = x` appends `x`.
  `write` returns the pair of its C++ return value and the output after the call.
* An input iterator is the list of units from the cursor to the end of the input;
  `*_input++` takes the head and leaves the tail as the new cursor.  The C++ `read` has no
  access to the end of the input, so dereferencing an exhausted cursor is undefined behaviour:
  the embedding reports it as `ReadResult.pastEnd`.  The `*_input++` that does so has moved
  the cursor one unit beyond the end, so such a call has no cursor inside the input.
* `throw nullopt` is reported as `ReadResult.thrown`, carrying the cursor at the time of the
  throw (the cursor is passed by reference, so the caller sees the increments done before it).
-/

namespace unicode

/-- The outcome of one call of `converter<T>::read`. -/
inductive ReadResult where
  /-- A normal `return`: the optional codepoint and the cursor after the call. -/
  | returned (value : Option Nat) (cursor : List Nat)
  /-- An exception left the function (`throw nullopt`); `cursor` is the cursor at that time. -/
  | thrown (cursor : List Nat)
  /-- The function dereferenced the cursor after the last unit of the input. -/
  | pastEnd
  deriving DecidableEq, Repr

namespace ReadResult

/-- The cursor when `read` stopped, as the units from it to the end of the input.  There is
    none for `pastEnd`: the `*_input++` that dereferenced the end of the input has moved the
    cursor beyond the end. -/
def cursor? : ReadResult → Option (List Nat)
  | returned _ c => some c
  | thrown c => some c
  | pastEnd => none

end ReadResult

/-- Number of units by which a call of `read` started at `input` moved the cursor.  For
    `pastEnd` it counts up to and including the `*_input++` that dereferenced the end of the
    input, which leaves the cursor one unit beyond the end; what the code does after that
    dereference is undefined. -/
def unitsConsumed (input : List Nat) (r : ReadResult) : Nat :=
  match r with
  | .returned _ c => input.length - c.length
  | .thrown c => input.length - c.length
  | .pastEnd => input.length + 1

/-- Conversion of a (signed) intermediate result to `char32_t`: reduction modulo `2^32`. -/
def toChar32 (v : Int) : Nat := (v % 4294967296).toNat

/-! ## `converter<char>` (UTF-8) -/

namespace converter_char

/-- Embedding of `converter<char>::write`, convert.h lines 31-60. -/
def write (_input : Nat) (_output : List Nat) : Nat × List Nat :=
  if _input ≤ 0x7F then
    (1, _output ++ [(_input &&& 0b01111111) % 256])
  else if _input ≤ 0x07FF then
    (2, _output ++ [(((_input >>> 6) &&& 0b00011111) ||| 0b11000000) % 256,
                    (((_input >>> 0) &&& 0b00111111) ||| 0b10000000) % 256])
  else if _input ≤ 0xFFFF then
    (3, _output ++ [(((_input >>> 12) &&& 0b00001111) ||| 0b11100000) % 256,
                    (((_input >>> 6) &&& 0b00111111) ||| 0b10000000) % 256,
                    (((_input >>> 0) &&& 0b00111111) ||| 0b10000000) % 256])
  else
    (4, _output ++ [(((_input >>> 18) &&& 0b00000111) ||| 0b11110000) % 256,
                    (((_input >>> 12) &&& 0b00111111) ||| 0b10000000) % 256,
                    (((_input >>> 6) &&& 0b00111111) ||| 0b10000000) % 256,
                    (((_input >>> 0) &&& 0b00111111) ||| 0b10000000) % 256])

/-- Embedding of `converter<char>::read`, convert.h lines 62-141.  Each `uint8_t(*_input++)` is a match on
    the cursor followed by `% 256`.  The arithmetic of the `return` expressions is carried out
    over the integers and converted to `char32_t` at the end, which agrees with the two's
    complement `int`/`unsigned` evaluation of the C++ expressions. -/
def read (_input : List Nat) : ReadResult :=
  match _input with
  | [] => .pastEnd
  | c0 :: i1 =>
    let ch0 := c0 % 256
    if ch0 < 0x80 then .returned (some ch0) i1
    else if ch0 < 0xC0 then .thrown i1
    else if ch0 < 0xE0 then
      match i1 with
      | [] => .pastEnd
      | c1 :: i2 =>
        let ch1 := c1 % 256
        if ch1 >>> 6 ≠ 2 then .returned none i2
        else .returned (some (toChar32 (((ch0 <<< 6) + ch1 : Nat) - 0x3080))) i2
    else if ch0 < 0xF0 then
      match i1 with
      | [] => .pastEnd
      | c1 :: i2 =>
        let ch1 := c1 % 256
        if ch1 >>> 6 ≠ 2 then .returned none i2
        else
          match i2 with
          | [] => .pastEnd
          | c2 :: i3 =>
            let ch2 := c2 % 256
            if ch2 >>> 6 ≠ 2 then .returned none i3
            else .returned
              (some (toChar32 (((ch0 <<< 12) + (ch1 <<< 6) + ch2 : Nat) - 0xE2080))) i3
    else if ch0 < 0xF8 then
      match i1 with
      | [] => .pastEnd
      | c1 :: i2 =>
        let ch1 := c1 % 256
        if ch1 >>> 6 ≠ 2 then .returned none i2
        else
          match i2 with
          | [] => .pastEnd
          | c2 :: i3 =>
            let ch2 := c2 % 256
            if ch2 >>> 6 ≠ 2 then .returned none i3
            else
              match i3 with
              | [] => .pastEnd
              | c3 :: i4 =>
                let ch3 := c3 % 256
                if ch3 >>> 6 ≠ 2 then .returned none i4
                else .returned
                  (some (toChar32
                    (((ch0 <<< 18) + (ch1 <<< 12) + (ch2 <<< 6) + ch3 : Nat) - 0x3C82080))) i4
    else if ch0 < 0xFC then
      match i1 with
      | [] => .pastEnd
      | c1 :: i2 =>
        let ch1 := c1 % 256
        if ch1 >>> 6 ≠ 2 then .returned none i2
        else
          match i2 with
          | [] => .pastEnd
          | c2 :: i3 =>
            let ch2 := c2 % 256
            if ch2 >>> 6 ≠ 2 then .returned none i3
            else
              match i3 with
              | [] => .pastEnd
              | c3 :: i4 =>
                let ch3 := c3 % 256
                if ch3 >>> 6 ≠ 2 then .returned none i4
                else
                  match i4 with
                  | [] => .pastEnd
                  | c4 :: i5 =>
                    let ch4 := c4 % 256
                    if ch4 >>> 6 ≠ 2 then .returned none i5
                    else .returned
                      (some (toChar32
                        (((ch0 <<< 24) + (ch1 <<< 18) + (ch2 <<< 12) + (ch3 <<< 6) + ch4 : Nat)
                          - 0xFA082080))) i5
    else if ch0 < 0xFE then
      match i1 with
      | [] => .pastEnd
      | c1 :: i2 =>
        let ch1 := c1 % 256
        if ch1 >>> 6 ≠ 2 then .returned none i2
        else
          match i2 with
          | [] => .pastEnd
          | c2 :: i3 =>
            let ch2 := c2 % 256
            if ch2 >>> 6 ≠ 2 then .returned none i3
            else
              match i3 with
              | [] => .pastEnd
              | c3 :: i4 =>
                let ch3 := c3 % 256
                if ch3 >>> 6 ≠ 2 then .returned none i4
                else
                  match i4 with
                  | [] => .pastEnd
                  | c4 :: i5 =>
                    let ch4 := c4 % 256
                    if ch4 >>> 6 ≠ 2 then .returned none i5
                    else
                      match i5 with
                      | [] => .pastEnd
                      | c5 :: i6 =>
                        let ch5 := c5 % 256
                        if ch5 >>> 6 ≠ 2 then .returned none i6
                        else .returned
                          (some (toChar32
                            (((ch0 <<< 30) + (ch1 <<< 24) + (ch2 <<< 18) + (ch3 <<< 12)
                              + (ch4 <<< 6) + ch5 : Nat) - 0x82082080))) i6
    else .returned none i1

end converter_char

/-! ## `converter<char16_t>` (UTF-16) -/

namespace converter_char16_t

/-- Embedding of `converter<char16_t>::write`, convert.h lines 147-172.  A unit stored through the output
    iterator is converted to `char16_t`. -/
def write (_input : Nat) (_output : List Nat) : Nat × List Nat :=
  if _input < 0xD800 then
    (1, _output ++ [_input % 65536])
  else if _input < 0x10000 then
    if _input < 0xE000 then
      (0, _output)
    else
      (1, _output ++ [_input % 65536])
  else if _input < 0x110000 then
    (2, _output ++ [(0xD7C0 + (_input >>> 10)) % 65536, (0xDC00 + (_input &&& 0x3FF)) % 65536])
  else
    (0, _output)

/-- Embedding of `converter<char16_t>::read`, convert.h lines 174-196. -/
def read (_input : List Nat) : ReadResult :=
  match _input with
  | [] => .pastEnd
  | ch0 :: i1 =>
    if ch0 < 0xD800 then .returned (some ch0) i1
    else if ch0 < 0xDC00 then
      match i1 with
      | [] => .pastEnd
      | ch1 :: i2 =>
        if ch1 >>> 10 ≠ 0x37 then .returned none i2
        else .returned (some (toChar32 (((ch0 <<< 10) + ch1 : Nat) - 0x35FDC00))) i2
    else if ch0 < 0xE000 then .returned none i1
    else .returned (some ch0) i1

end converter_char16_t

/-! ## `converter<char32_t>` (UTF-32) -/

namespace converter_char32_t

/-- Embedding of `converter<char32_t>::write`, convert.h lines 202-207. -/
def write (_input : Nat) (_output : List Nat) : Nat × List Nat :=
  (1, _output ++ [_input % 4294967296])

/-- Embedding of `converter<char32_t>::read`, convert.h lines 209-213. -/
def read (_input : List Nat) : ReadResult :=
  match _input with
  | [] => .pastEnd
  | ch0 :: i1 => .returned (some ch0) i1

end converter_char32_t


/-! ## The `convert_to` driver -/

/-- The code unit types for which `converter<T>` is modelled here. -/
inductive CharType where
  | char
  | char16_t
  | char32_t
  deriving DecidableEq, Repr

/-- The `write` of `converter<T>`, selected by the unit type. -/
def write : CharType → Nat → List Nat → Nat × List Nat
  | .char => converter_char.write
  | .char16_t => converter_char16_t.write
  | .char32_t => converter_char32_t.write

/-- The `read` of `converter<S>`, selected by the unit type. -/
def read : CharType → List Nat → ReadResult
  | .char => converter_char.read
  | .char16_t => converter_char16_t.read
  | .char32_t => converter_char32_t.read

/-- How a call of `convert_to` ends. -/
inductive ConvertResult where
  /-- The call returned; `output` holds the units appended. -/
  | done (output : List Nat)
  /-- An exception thrown by `read` left `convert_to`; `output` was appended before it. -/
  | thrown (output : List Nat)
  /-- A `read` dereferenced the cursor after the last unit of the input. -/
  | pastEnd (output : List Nat)
  /-- The iteration bound of the embedding was used up before the loop condition failed. -/
  | outOfFuel
  deriving DecidableEq, Repr

namespace detail

/-- Embedding of `detail::convert_identity`, convert.h lines 244-249:
    `for (auto const c : s) *t++ = c;`. -/
def convert_identity (s : List Nat) (t : List Nat) : List Nat :=
  s.foldl (fun t c => t ++ [c]) t

end detail

/-- The `while (i != e)` loop of `convert_to`, convert.h lines 260-267, run for at most `fuel`
    iterations.  `i` is the cursor (`i == e` when it is empty), `_output` the units appended
    so far. -/
def convertLoop (S T : CharType) : Nat → List Nat → List Nat → ConvertResult
  | _, [], _output => .done _output
  | 0, _ :: _, _ => .outOfFuel
  | fuel + 1, c :: i, _output =>
    match read S (c :: i) with
    | .returned (some outChar) i2 => convertLoop S T fuel i2 (write T outChar _output).2
    | .returned none i2 => convertLoop S T fuel i2 _output
    | .thrown _ => .thrown _output
    | .pastEnd => .pastEnd _output

/-- Embedding of `convert_to<T>(std::basic_string_view<S>)`, convert.h lines 253-278, with
    the output starting empty.  Every iteration of the loop consumes a unit, so the length of the input
    bounds the number of iterations. -/
def convert_to (T S : CharType) (_input : List Nat) : ConvertResult :=
  if S = T then .done (detail.convert_identity _input [])
  else convertLoop S T _input.length _input []

/-! ## `converter<wchar_t>` -/

namespace converter_wchar_t

/-- Embedding of `converter<wchar_t>::write`, convert.h lines 219-228; `sizeof_wchar_t` is the
    platform constant `sizeof(wchar_t)` that the `if constexpr` tests. -/
def write (sizeof_wchar_t : Nat) (_input : Nat) (_output : List Nat) : Nat × List Nat :=
  if sizeof_wchar_t = 2 then converter_char16_t.write _input _output
  else converter_char32_t.write _input _output

/-- Embedding of `converter<wchar_t>::read`, convert.h lines 230-239.  The branch taken when
    `sizeof(wchar_t)` is not 2 is `return converter<char32_t>{}.write(_input);`: a call of
    `write` with one argument, while `converter<char32_t>::write` takes a codepoint and an
    output iterator.  No such overload exists, so this instantiation does not compile and the
    function has no behaviour there: the embedding gives `none`. -/
def read (sizeof_wchar_t : Nat) (_input : List Nat) : Option ReadResult :=
  if sizeof_wchar_t = 2 then some (converter_char16_t.read _input)
  else none

end converter_wchar_t

/-! ## The multi-stage table -/

/-- The property record, with the fields that `write_cxx_properties_table` prints
    (tablegen.cpp lines 85-92); every field is a small unsigned value. -/
structure codepoint_properties where
  char_width : Nat
  flags : Nat
  script : Nat
  grapheme_cluster_break : Nat
  east_asian_width : Nat
  general_category : Nat
  emoji_segmentation_category : Nat
  age : Nat
  deriving DecidableEq, Repr

/-- The three stages that `codepoint_properties::configured_tables` is built from
    (codepoint_properties.cpp lines 20-22), with the constant `tables_view::block_size`. -/
structure tables_view where
  block_size : Nat
  stage1 : List Nat
  stage2 : List Nat
  stage3 : List codepoint_properties

/-- Modelled from the spec: the query `lookup` of the multi-stage table, whose definition is in
    the header `unicode/codepoint_properties.h`, which is not among the sources.  Section 4.1:
    compute `block = codepoint / block_size`; bounds-check against the length of `stage1`; if
    out of range return the default record immediately; otherwise
    `stage2_index = stage1[block] + codepoint % block_size`,
    `stage3_index = stage2[stage2_index]`, return `stage3[stage3_index]`.
    An index outside its array makes the result `none`. -/
def lookup (t : tables_view) (default_record : codepoint_properties) (codepoint : Nat) :
    Option codepoint_properties :=
  let block := codepoint / t.block_size
  if block < t.stage1.length then
    match t.stage1[block]? with
    | none => none
    | some offset =>
      match t.stage2[offset + codepoint % t.block_size]? with
      | none => none
      | some stage3_index => t.stage3[stage3_index]?
  else
    some default_record

/-- Validity of a table as the generator is required to produce it: blocks are not empty,
    every `stage1` entry is the offset of a whole block inside `stage2`, and every `stage2`
    entry is an index into `stage3`. -/
def tables_view.Valid (t : tables_view) : Prop :=
  0 < t.block_size ∧
  (∀ offset ∈ t.stage1, offset + t.block_size ≤ t.stage2.length) ∧
  (∀ index ∈ t.stage2, index < t.stage3.length)

/-! ## The table generator -/

/-- The value that `std::max_element` points at: the largest element of a non-empty range;
    `none` stands for the end iterator returned for an empty range. -/
def max_element : List Nat → Option Nat
  | [] => none
  | first :: rest =>
    some (rest.foldl (fun largest x => if largest < x then x else largest) first)

/-- Embedding of `minimum_uint_t`, tablegen.cpp lines 29-40.  On an empty vector the function
    dereferences the end iterator; the embedding gives `none` there. -/
def minimum_uint_t (values : List Nat) : Option String :=
  match max_element values with
  | none => none
  | some v =>
    if v ≤ 0xFF then some ("uint8_t")
    else if v ≤ 0xFFFF then some ("uint16_t")
    else if v ≤ 0xFFFFFFFF then some ("uint32_t")
    else some ("uint64_t")

/-- Number of bits of the unsigned type that a name returned by `minimum_uint_t` denotes. -/
def bitWidth (name : String) : Nat :=
  if name = ("uint8_t") then 8
  else if name = ("uint16_t") then 16
  else if name = ("uint32_t") then 32
  else 64

/-! ## Vocabulary of the specification -/

/-- A Unicode scalar value: at most `0x10FFFF` and not a surrogate. -/
def IsScalar (cp : Nat) : Prop := cp ≤ 0x10FFFF ∧ ¬ (0xD800 ≤ cp ∧ cp ≤ 0xDFFF)

instance (cp : Nat) : Decidable (IsScalar cp) := by
  unfold IsScalar; infer_instance

/-- The encoding of a list of codepoints: the concatenation of the outputs of `write`. -/
def encode (E : CharType) (cps : List Nat) : List Nat :=
  cps.foldl (fun out cp => (write E cp out).2) []

/-- The sequence length that a lead byte selects, as the specification lists it; 0 for a
    byte that selects none (`0x80..0xBF`, `0xFE`, `0xFF`). -/
def sequenceLength (b0 : Nat) : Nat :=
  if b0 < 0x80 then 1
  else if 0xC0 ≤ b0 ∧ b0 ≤ 0xDF then 2
  else if 0xE0 ≤ b0 ∧ b0 ≤ 0xEF then 3
  else if 0xF0 ≤ b0 ∧ b0 ≤ 0xF7 then 4
  else if 0xF8 ≤ b0 ∧ b0 ≤ 0xFB then 5
  else if 0xFC ≤ b0 ∧ b0 ≤ 0xFD then 6
  else 0

/-- Mask of the payload bits in the lead byte of an `n`-unit sequence: 7, 5, 4, 3, 2 and 1
    bits for `n` from 1 to 6. -/
def leadPayloadMask : Nat → Nat
  | 1 => 0x7F
  | 2 => 0x1F
  | 3 => 0x0F
  | 4 => 0x07
  | 5 => 0x03
  | 6 => 0x01
  | _ => 0

/-- The mask-and-shift reference decoder of the specification: the payload bits of the lead
    byte followed by the low six bits of each continuation byte. -/
def referenceDecode (b0 : Nat) (conts : List Nat) : Nat :=
  conts.foldl (fun acc b => (acc <<< 6) ||| (b &&& 0x3F))
    (b0 &&& leadPayloadMask (conts.length + 1))

/-- The largest value that a form shorter than `n` units can carry. -/
def shorterFormMax : Nat → Nat
  | 2 => 0x7F
  | 3 => 0x7FF
  | 4 => 0xFFFF
  | 5 => 0x1FFFFF
  | 6 => 0x3FFFFFF
  | _ => 0

/-- The lead pattern of an `n`-unit sequence written by `converter<char>::write`:
    `110xxxxx`, `1110xxxx`, `11110xxx` for `n` = 2, 3, 4. -/
def HasLeadPattern (n u : Nat) : Prop :=
  (n = 2 ∧ u >>> 5 = 0b110) ∨ (n = 3 ∧ u >>> 4 = 0b1110) ∨ (n = 4 ∧ u >>> 3 = 0b11110)

/-! ## Bit operations as arithmetic -/

theorem and_7F (x : Nat) : x &&& 0x7F = x % 128 := Nat.and_pow_two_sub_one_eq_mod x 7
theorem and_3F (x : Nat) : x &&& 0x3F = x % 64 := Nat.and_pow_two_sub_one_eq_mod x 6
theorem and_1F (x : Nat) : x &&& 0x1F = x % 32 := Nat.and_pow_two_sub_one_eq_mod x 5
theorem and_0F (x : Nat) : x &&& 0x0F = x % 16 := Nat.and_pow_two_sub_one_eq_mod x 4
theorem and_07 (x : Nat) : x &&& 0x07 = x % 8 := Nat.and_pow_two_sub_one_eq_mod x 3
theorem and_03 (x : Nat) : x &&& 0x03 = x % 4 := Nat.and_pow_two_sub_one_eq_mod x 2
theorem and_01 (x : Nat) : x &&& 0x01 = x % 2 := Nat.and_pow_two_sub_one_eq_mod x 1
theorem and_3FF (x : Nat) : x &&& 0x3FF = x % 1024 := Nat.and_pow_two_sub_one_eq_mod x 10
theorem or_80 : ∀ x, x < 64 → x ||| 0x80 = x + 0x80 := by decide
theorem or_C0 : ∀ x, x < 32 → x ||| 0xC0 = x + 0xC0 := by decide
theorem or_E0 : ∀ x, x < 16 → x ||| 0xE0 = x + 0xE0 := by decide
theorem or_F0 : ∀ x, x < 8 → x ||| 0xF0 = x + 0xF0 := by decide

theorem or_80_mod (x : Nat) : (x % 64) ||| 0x80 = x % 64 + 0x80 :=
  or_80 _ (Nat.mod_lt _ (by decide))
theorem or_C0_mod (x : Nat) : (x % 32) ||| 0xC0 = x % 32 + 0xC0 :=
  or_C0 _ (Nat.mod_lt _ (by decide))
theorem or_E0_mod (x : Nat) : (x % 16) ||| 0xE0 = x % 16 + 0xE0 :=
  or_E0 _ (Nat.mod_lt _ (by decide))
theorem or_F0_mod (x : Nat) : (x % 8) ||| 0xF0 = x % 8 + 0xF0 :=
  or_F0 _ (Nat.mod_lt _ (by decide))

namespace converter_char

theorem write_one (cp : Nat) (out : List Nat) (h : cp ≤ 0x7F) :
    write cp out = (1, out ++ [cp]) := by
  simp only [write, if_pos h, and_7F]
  congr 3
  omega

theorem write_two (cp : Nat) (out : List Nat) (h1 : 0x7F < cp) (h2 : cp ≤ 0x7FF) :
    write cp out = (2, out ++ [0xC0 + cp / 64, 0x80 + cp % 64]) := by
  have n1 : ¬ cp ≤ 0x7F := by omega
  have a0 : (cp / 2 ^ 6 % 32 + 0xC0) % 256 = 0xC0 + cp / 64 := by omega
  have a1 : (cp / 2 ^ 0 % 64 + 0x80) % 256 = 0x80 + cp % 64 := by omega
  simp only [write, if_neg n1, if_pos h2, and_1F, and_3F, Nat.shiftRight_eq_div_pow,
    or_80_mod, or_C0_mod, a0, a1]

theorem read_two (b0 b1 : Nat) (rest : List Nat) (h0 : 0xC0 ≤ b0) (h0' : b0 < 0xE0)
    (h1 : 0x80 ≤ b1) (h1' : b1 < 0xC0) :
    read (b0 :: b1 :: rest) = .returned (some ((b0 - 0xC0) * 64 + (b1 - 0x80))) rest := by
  have e0 : b0 % 256 = b0 := by omega
  have e1 : b1 % 256 = b1 := by omega
  have s1 : b1 / 64 = 2 := by omega
  have n1 : ¬ b0 < 0x80 := by omega
  have n2 : ¬ b0 < 0xC0 := by omega
  simp [read, e0, e1, n1, n2, h0', Nat.shiftRight_eq_div_pow, Nat.shiftLeft_eq, toChar32, s1]
  omega

theorem write_three (cp : Nat) (out : List Nat) (h1 : 0x7FF < cp) (h2 : cp ≤ 0xFFFF) :
    write cp out = (3, out ++ [0xE0 + cp / 4096, 0x80 + cp / 64 % 64, 0x80 + cp % 64]) := by
  have n1 : ¬ cp ≤ 0x7F := by omega
  have n2 : ¬ cp ≤ 0x7FF := by omega
  have a0 : (cp / 2 ^ 12 % 16 + 0xE0) % 256 = 0xE0 + cp / 4096 := by omega
  have a1 : (cp / 2 ^ 6 % 64 + 0x80) % 256 = 0x80 + cp / 64 % 64 := by omega
  have a2 : (cp / 2 ^ 0 % 64 + 0x80) % 256 = 0x80 + cp % 64 := by omega
  simp only [write, if_neg n1, if_neg n2, if_pos h2, and_0F, and_3F, Nat.shiftRight_eq_div_pow,
    or_80_mod, or_E0_mod, a0, a1, a2]

theorem write_four (cp : Nat) (out : List Nat) (h1 : 0xFFFF < cp) (h2 : cp < 0x200000) :
    write cp out =
      (4, out ++ [0xF0 + cp / 262144, 0x80 + cp / 4096 % 64, 0x80 + cp / 64 % 64,
                  0x80 + cp % 64]) := by
  have n1 : ¬ cp ≤ 0x7F := by omega
  have n2 : ¬ cp ≤ 0x7FF := by omega
  have n3 : ¬ cp ≤ 0xFFFF := by omega
  have a0 : (cp / 2 ^ 18 % 8 + 0xF0) % 256 = 0xF0 + cp / 262144 := by omega
  have a1 : (cp / 2 ^ 12 % 64 + 0x80) % 256 = 0x80 + cp / 4096 % 64 := by omega
  have a2 : (cp / 2 ^ 6 % 64 + 0x80) % 256 = 0x80 + cp / 64 % 64 := by omega
  have a3 : (cp / 2 ^ 0 % 64 + 0x80) % 256 = 0x80 + cp % 64 := by omega
  simp only [write, if_neg n1, if_neg n2, if_neg n3, and_07, and_3F, Nat.shiftRight_eq_div_pow,
    or_80_mod, or_F0_mod, a0, a1, a2, a3]

theorem read_one (b0 : Nat) (rest : List Nat) (h0 : b0 < 0x80) :
    read (b0 :: rest) = .returned (some b0) rest := by
  have e0 : b0 % 256 = b0 := by omega
  simp [read, e0, h0]

theorem read_three (b0 b1 b2 : Nat) (rest : List Nat) (h0 : 0xE0 ≤ b0) (h0' : b0 < 0xF0)
    (h1 : 0x80 ≤ b1) (h1' : b1 < 0xC0) (h2 : 0x80 ≤ b2) (h2' : b2 < 0xC0) :
    read (b0 :: b1 :: b2 :: rest) =
      .returned (some ((b0 - 0xE0) * 4096 + (b1 - 0x80) * 64 + (b2 - 0x80))) rest := by
  have e0 : b0 % 256 = b0 := by omega
  have e1 : b1 % 256 = b1 := by omega
  have e2 : b2 % 256 = b2 := by omega
  have s1 : b1 / 64 = 2 := by omega
  have s2 : b2 / 64 = 2 := by omega
  have n1 : ¬ b0 < 0x80 := by omega
  have n2 : ¬ b0 < 0xC0 := by omega
  have n3 : ¬ b0 < 0xE0 := by omega
  simp [read, e0, e1, e2, n1, n2, n3, h0', Nat.shiftRight_eq_div_pow, Nat.shiftLeft_eq,
    toChar32, s1, s2]
  omega

theorem read_four (b0 b1 b2 b3 : Nat) (rest : List Nat) (h0 : 0xF0 ≤ b0) (h0' : b0 < 0xF8)
    (h1 : 0x80 ≤ b1) (h1' : b1 < 0xC0) (h2 : 0x80 ≤ b2) (h2' : b2 < 0xC0)
    (h3 : 0x80 ≤ b3) (h3' : b3 < 0xC0) :
    read (b0 :: b1 :: b2 :: b3 :: rest) =
      .returned (some ((b0 - 0xF0) * 262144 + (b1 - 0x80) * 4096 + (b2 - 0x80) * 64
        + (b3 - 0x80))) rest := by
  have e0 : b0 % 256 = b0 := by omega
  have e1 : b1 % 256 = b1 := by omega
  have e2 : b2 % 256 = b2 := by omega
  have e3 : b3 % 256 = b3 := by omega
  have s1 : b1 / 64 = 2 := by omega
  have s2 : b2 / 64 = 2 := by omega
  have s3 : b3 / 64 = 2 := by omega
  have n1 : ¬ b0 < 0x80 := by omega
  have n2 : ¬ b0 < 0xC0 := by omega
  have n3 : ¬ b0 < 0xE0 := by omega
  have n4 : ¬ b0 < 0xF0 := by omega
  simp [read, e0, e1, e2, e3, n1, n2, n3, n4, h0', Nat.shiftRight_eq_div_pow, Nat.shiftLeft_eq,
    toChar32, s1, s2, s3]
  omega

theorem read_five (b0 b1 b2 b3 b4 : Nat) (rest : List Nat) (h0 : 0xF8 ≤ b0) (h0' : b0 < 0xFC)
    (h1 : 0x80 ≤ b1) (h1' : b1 < 0xC0) (h2 : 0x80 ≤ b2) (h2' : b2 < 0xC0)
    (h3 : 0x80 ≤ b3) (h3' : b3 < 0xC0) (h4 : 0x80 ≤ b4) (h4' : b4 < 0xC0) :
    read (b0 :: b1 :: b2 :: b3 :: b4 :: rest) =
      .returned (some ((b0 - 0xF8) * 16777216 + (b1 - 0x80) * 262144 + (b2 - 0x80) * 4096
        + (b3 - 0x80) * 64 + (b4 - 0x80))) rest := by
  have e0 : b0 % 256 = b0 := by omega
  have e1 : b1 % 256 = b1 := by omega
  have e2 : b2 % 256 = b2 := by omega
  have e3 : b3 % 256 = b3 := by omega
  have e4 : b4 % 256 = b4 := by omega
  have s1 : b1 / 64 = 2 := by omega
  have s2 : b2 / 64 = 2 := by omega
  have s3 : b3 / 64 = 2 := by omega
  have s4 : b4 / 64 = 2 := by omega
  have n1 : ¬ b0 < 0x80 := by omega
  have n2 : ¬ b0 < 0xC0 := by omega
  have n3 : ¬ b0 < 0xE0 := by omega
  have n4 : ¬ b0 < 0xF0 := by omega
  have n5 : ¬ b0 < 0xF8 := by omega
  simp [read, e0, e1, e2, e3, e4, n1, n2, n3, n4, n5, h0', Nat.shiftRight_eq_div_pow,
    Nat.shiftLeft_eq, toChar32, s1, s2, s3, s4]
  omega

theorem read_six (b0 b1 b2 b3 b4 b5 : Nat) (rest : List Nat) (h0 : 0xFC ≤ b0) (h0' : b0 < 0xFE)
    (h1 : 0x80 ≤ b1) (h1' : b1 < 0xC0) (h2 : 0x80 ≤ b2) (h2' : b2 < 0xC0)
    (h3 : 0x80 ≤ b3) (h3' : b3 < 0xC0) (h4 : 0x80 ≤ b4) (h4' : b4 < 0xC0)
    (h5 : 0x80 ≤ b5) (h5' : b5 < 0xC0) :
    read (b0 :: b1 :: b2 :: b3 :: b4 :: b5 :: rest) =
      .returned (some ((b0 - 0xFC) * 1073741824 + (b1 - 0x80) * 16777216 + (b2 - 0x80) * 262144
        + (b3 - 0x80) * 4096 + (b4 - 0x80) * 64 + (b5 - 0x80))) rest := by
  have e0 : b0 % 256 = b0 := by omega
  have e1 : b1 % 256 = b1 := by omega
  have e2 : b2 % 256 = b2 := by omega
  have e3 : b3 % 256 = b3 := by omega
  have e4 : b4 % 256 = b4 := by omega
  have e5 : b5 % 256 = b5 := by omega
  have s1 : b1 / 64 = 2 := by omega
  have s2 : b2 / 64 = 2 := by omega
  have s3 : b3 / 64 = 2 := by omega
  have s4 : b4 / 64 = 2 := by omega
  have s5 : b5 / 64 = 2 := by omega
  have n1 : ¬ b0 < 0x80 := by omega
  have n2 : ¬ b0 < 0xC0 := by omega
  have n3 : ¬ b0 < 0xE0 := by omega
  have n4 : ¬ b0 < 0xF0 := by omega
  have n5 : ¬ b0 < 0xF8 := by omega
  have n6 : ¬ b0 < 0xFC := by omega
  simp [read, e0, e1, e2, e3, e4, e5, n1, n2, n3, n4, n5, n6, h0', Nat.shiftRight_eq_div_pow,
    Nat.shiftLeft_eq, toChar32, s1, s2, s3, s4, s5]
  omega

theorem utf8_read_write (cp : Nat) (rest : List Nat) (h : cp ≤ 0x10FFFF) :
    read ((write cp []).2 ++ rest) = .returned (some cp) rest := by
  by_cases c1 : cp ≤ 0x7F
  · rw [write_one cp [] c1]
    exact read_one cp rest (by omega)
  by_cases c2 : cp ≤ 0x7FF
  · rw [write_two cp [] (by omega) c2]
    show read ((0xC0 + cp / 64) :: (0x80 + cp % 64) :: rest) = _
    rw [read_two (0xC0 + cp / 64) (0x80 + cp % 64) rest (by omega) (by omega) (by omega) (by omega)]
    simp only [ReadResult.returned.injEq, Option.some.injEq, and_true]
    omega
  by_cases c3 : cp ≤ 0xFFFF
  · rw [write_three cp [] (by omega) c3]
    show read ((0xE0 + cp / 4096) :: (0x80 + cp / 64 % 64) :: (0x80 + cp % 64) :: rest) = _
    rw [read_three (0xE0 + cp / 4096) (0x80 + cp / 64 % 64) (0x80 + cp % 64) rest (by omega) (by omega) (by omega) (by omega) (by omega) (by omega)]
    simp only [ReadResult.returned.injEq, Option.some.injEq, and_true]
    omega
  · rw [write_four cp [] (by omega) (by omega)]
    show read ((0xF0 + cp / 262144) :: (0x80 + cp / 4096 % 64) :: (0x80 + cp / 64 % 64) ::
      (0x80 + cp % 64) :: rest) = _
    rw [read_four (0xF0 + cp / 262144) (0x80 + cp / 4096 % 64) (0x80 + cp / 64 % 64)
      (0x80 + cp % 64) rest (by omega) (by omega) (by omega) (by omega) (by omega) (by omega)
      (by omega) (by omega)]
    simp only [ReadResult.returned.injEq, Option.some.injEq, and_true]
    omega

end converter_char

namespace converter_char16_t

theorem write_bmp (cp : Nat) (out : List Nat) (h : cp < 0x10000)
    (hs : ¬ (0xD800 ≤ cp ∧ cp ≤ 0xDFFF)) : write cp out = (1, out ++ [cp]) := by
  have e : cp % 65536 = cp := by omega
  by_cases c1 : cp < 0xD800
  · simp only [write, if_pos c1, e]
  · have c2 : ¬ cp < 0xE000 := by omega
    simp only [write, if_neg c1, if_pos h, if_neg c2, e]

theorem write_surrogate (cp : Nat) (out : List Nat) (h1 : 0xD800 ≤ cp) (h2 : cp ≤ 0xDFFF) :
    write cp out = (0, out) := by
  have c1 : ¬ cp < 0xD800 := by omega
  have c2 : cp < 0x10000 := by omega
  have c3 : cp < 0xE000 := by omega
  simp only [write, if_neg c1, if_pos c2, if_pos c3]

theorem write_pair (cp : Nat) (out : List Nat) (h1 : 0x10000 ≤ cp) (h2 : cp ≤ 0x10FFFF) :
    write cp out = (2, out ++ [0xD7C0 + cp / 1024, 0xDC00 + cp % 1024]) := by
  have c1 : ¬ cp < 0xD800 := by omega
  have c2 : ¬ cp < 0x10000 := by omega
  have c3 : cp < 0x110000 := by omega
  have a0 : (0xD7C0 + cp / 2 ^ 10) % 65536 = 0xD7C0 + cp / 1024 := by omega
  have a1 : (0xDC00 + cp % 1024) % 65536 = 0xDC00 + cp % 1024 := by omega
  simp only [write, if_neg c1, if_neg c2, if_pos c3, and_3FF, Nat.shiftRight_eq_div_pow, a0, a1]

theorem write_too_large (cp : Nat) (out : List Nat) (h : 0x110000 ≤ cp) :
    write cp out = (0, out) := by
  have c1 : ¬ cp < 0xD800 := by omega
  have c2 : ¬ cp < 0x10000 := by omega
  have c3 : ¬ cp < 0x110000 := by omega
  simp only [write, if_neg c1, if_neg c2, if_neg c3]

theorem read_bmp (u0 : Nat) (rest : List Nat) (h : u0 < 0xD800 ∨ 0xE000 ≤ u0) :
    read (u0 :: rest) = .returned (some u0) rest := by
  by_cases c1 : u0 < 0xD800
  · simp only [read, if_pos c1]
  · have c2 : ¬ u0 < 0xDC00 := by omega
    have c3 : ¬ u0 < 0xE000 := by omega
    simp only [read, if_neg c1, if_neg c2, if_neg c3]

theorem read_low_first (u0 : Nat) (rest : List Nat) (h1 : 0xDC00 ≤ u0) (h2 : u0 ≤ 0xDFFF) :
    read (u0 :: rest) = .returned none rest := by
  have c1 : ¬ u0 < 0xD800 := by omega
  have c2 : ¬ u0 < 0xDC00 := by omega
  have c3 : u0 < 0xE000 := by omega
  simp only [read, if_neg c1, if_neg c2, if_pos c3]

theorem read_pair (u0 u1 : Nat) (rest : List Nat) (h1 : 0xD800 ≤ u0) (h2 : u0 ≤ 0xDBFF)
    (h3 : 0xDC00 ≤ u1) (h4 : u1 ≤ 0xDFFF) :
    read (u0 :: u1 :: rest) =
      .returned (some (0x10000 + (u0 - 0xD800) * 1024 + (u1 - 0xDC00))) rest := by
  have c1 : ¬ u0 < 0xD800 := by omega
  have c2 : u0 < 0xDC00 := by omega
  have s1 : u1 / 2 ^ 10 = 0x37 := by omega
  simp only [read, if_neg c1, if_pos c2, Nat.shiftRight_eq_div_pow, s1, ne_eq,
    not_true_eq_false, if_false, Nat.shiftLeft_eq, toChar32, ReadResult.returned.injEq,
    Option.some.injEq, and_true]
  omega

theorem read_unpaired (u0 u1 : Nat) (rest : List Nat) (h1 : 0xD800 ≤ u0) (h2 : u0 ≤ 0xDBFF)
    (h3 : ¬ (0xDC00 ≤ u1 ∧ u1 ≤ 0xDFFF)) :
    read (u0 :: u1 :: rest) = .returned none rest := by
  have c1 : ¬ u0 < 0xD800 := by omega
  have c2 : u0 < 0xDC00 := by omega
  have s1 : u1 / 2 ^ 10 ≠ 0x37 := by omega
  simp only [read, if_neg c1, if_pos c2, Nat.shiftRight_eq_div_pow, ne_eq, s1,
    not_false_eq_true, if_true]

theorem utf16_read_write (cp : Nat) (rest : List Nat) (h : IsScalar cp) :
    read ((write cp []).2 ++ rest) = .returned (some cp) rest := by
  obtain ⟨hle, hs⟩ := h
  by_cases c1 : cp < 0x10000
  · rw [write_bmp cp [] c1 hs]
    exact read_bmp cp rest (by omega)
  · rw [write_pair cp [] (by omega) hle]
    show read ((0xD7C0 + cp / 1024) :: (0xDC00 + cp % 1024) :: rest) = _
    rw [read_pair (0xD7C0 + cp / 1024) (0xDC00 + cp % 1024) rest (by omega) (by omega)
      (by omega) (by omega)]
    simp only [ReadResult.returned.injEq, Option.some.injEq, and_true]
    omega

end converter_char16_t

/-! ## Facts shared by the three converters -/

theorem write_eq_append (E : CharType) (cp : Nat) (out : List Nat) :
    write E cp out = ((write E cp []).1, out ++ (write E cp []).2) := by
  cases E
  · simp only [write, converter_char.write]
    split_ifs <;> simp
  · simp only [write, converter_char16_t.write]
    split_ifs <;> simp
  · simp [write, converter_char32_t.write]

theorem write_length (E : CharType) (cp : Nat) :
    (write E cp []).2.length = (write E cp []).1 := by
  cases E
  · simp only [write, converter_char.write]
    split_ifs <;> simp
  · simp only [write, converter_char16_t.write]
    split_ifs <;> simp
  · simp [write, converter_char32_t.write]

theorem write_scalar_pos (E : CharType) (cp : Nat) (h : IsScalar cp) :
    1 ≤ (write E cp []).1 := by
  obtain ⟨hle, hs⟩ := h
  cases E
  · simp only [write, converter_char.write]
    split_ifs <;> simp
  · simp only [write, converter_char16_t.write]
    split_ifs <;> simp <;> omega
  · simp [write, converter_char32_t.write]

theorem read_write_scalar (E : CharType) (cp : Nat) (rest : List Nat) (h : IsScalar cp) :
    read E ((write E cp []).2 ++ rest) = .returned (some cp) rest := by
  cases E
  · exact converter_char.utf8_read_write cp rest h.1
  · exact converter_char16_t.utf16_read_write cp rest h
  · have e : cp % 4294967296 = cp := by
      have := h.1
      omega
    simp [read, write, converter_char32_t.read, converter_char32_t.write, e]

theorem foldl_write_eq (E : CharType) (cps : List Nat) (out : List Nat) :
    cps.foldl (fun out cp => (write E cp out).2) out
      = out ++ cps.foldl (fun out cp => (write E cp out).2) [] := by
  induction cps generalizing out with
  | nil => simp
  | cons cp cps ih =>
    simp only [List.foldl_cons]
    rw [ih (write E cp out).2, ih (write E cp []).2, write_eq_append E cp out]
    simp

theorem encode_nil (E : CharType) : encode E [] = [] := rfl

theorem encode_cons (E : CharType) (cp : Nat) (cps : List Nat) :
    encode E (cp :: cps) = (write E cp []).2 ++ encode E cps := by
  simp only [encode, List.foldl_cons]
  exact foldl_write_eq E cps _

theorem convertLoop_succ_cons (S T : CharType) (fuel c : Nat) (i out : List Nat) :
    convertLoop S T (fuel + 1) (c :: i) out =
      match read S (c :: i) with
      | .returned (some outChar) i2 => convertLoop S T fuel i2 (write T outChar out).2
      | .returned none i2 => convertLoop S T fuel i2 out
      | .thrown _ => .thrown out
      | .pastEnd => .pastEnd out := rfl

theorem convertLoop_encode (S T : CharType) (cps : List Nat) (h : ∀ cp ∈ cps, IsScalar cp) :
    ∀ (fuel : Nat) (out : List Nat), (encode S cps).length ≤ fuel →
      convertLoop S T fuel (encode S cps) out = .done (out ++ encode T cps) := by
  induction cps with
  | nil =>
    intro fuel out _
    cases fuel <;> simp [encode_nil, convertLoop]
  | cons cp cps ih =>
    intro fuel out hf
    have hcp : IsScalar cp := h cp (List.mem_cons_self _ _)
    have hpos := write_scalar_pos S cp hcp
    have hlen := write_length S cp
    have hrd := read_write_scalar S cp (encode S cps) hcp
    rw [encode_cons] at hf ⊢
    rw [List.length_append] at hf
    obtain ⟨f, rfl⟩ : ∃ f, fuel = f + 1 := ⟨fuel - 1, by omega⟩
    cases hw : (write S cp []).2 with
    | nil => rw [hw] at hlen; simp at hlen; omega
    | cons u us =>
      rw [hw] at hrd hf
      rw [List.cons_append] at hrd
      rw [List.cons_append, convertLoop_succ_cons, hrd]
      simp only []
      rw [ih (fun c hc => h c (List.mem_cons_of_mem _ hc)) f _ (by simp at hf; omega)]
      rw [write_eq_append T cp out, encode_cons, List.append_assoc]

/-! ## The reference decoder and the failure paths of the 8-bit `read` -/

theorem shl6_or (a c : Nat) : (a <<< 6) ||| (c &&& 0x3F) = a * 64 + c % 64 := by
  have h := Nat.mul_add_lt_is_or (Nat.mod_lt c (by decide : 0 < 2 ^ 6)) a
  rw [and_3F, Nat.shiftLeft_eq, Nat.mul_comm a (2 ^ 6)]
  exact h.symm

theorem sequenceLength_cases (b0 : Nat) :
    (sequenceLength b0 = 1 ↔ b0 < 0x80) ∧
    (sequenceLength b0 = 2 ↔ 0xC0 ≤ b0 ∧ b0 ≤ 0xDF) ∧
    (sequenceLength b0 = 3 ↔ 0xE0 ≤ b0 ∧ b0 ≤ 0xEF) ∧
    (sequenceLength b0 = 4 ↔ 0xF0 ≤ b0 ∧ b0 ≤ 0xF7) ∧
    (sequenceLength b0 = 5 ↔ 0xF8 ≤ b0 ∧ b0 ≤ 0xFB) ∧
    (sequenceLength b0 = 6 ↔ 0xFC ≤ b0 ∧ b0 ≤ 0xFD) ∧
    sequenceLength b0 ≤ 6 := by
  unfold sequenceLength
  split_ifs <;> simp <;> omega

theorem continuation_range (b : Nat) (h : b >>> 6 = 2) : 0x80 ≤ b ∧ b < 0xC0 := by
  rw [Nat.shiftRight_eq_div_pow] at h
  omega

theorem read_eq_referenceDecode (b0 : Nat) (conts rest : List Nat) (hb0 : b0 < 256)
    (hlen : sequenceLength b0 = conts.length + 1) (hc : ∀ b ∈ conts, b >>> 6 = 2) :
    converter_char.read (b0 :: conts ++ rest)
      = .returned (some (referenceDecode b0 conts)) rest := by
  have hs := sequenceLength_cases b0
  match conts, hlen, hc with
  | [], hlen, _ =>
    have r0 := hs.1.1 hlen
    rw [List.cons_append, List.nil_append, converter_char.read_one b0 rest r0]
    simp only [referenceDecode, List.foldl_nil, List.length_nil, leadPayloadMask, and_7F,
      ReadResult.returned.injEq, Option.some.injEq, and_true]
    omega
  | [b1], hlen, hc =>
    have r0 := hs.2.1.1 hlen
    have r1 := continuation_range b1 (hc b1 (by simp))
    simp only [List.cons_append, List.nil_append]
    rw [converter_char.read_two b0 b1 rest r0.1 (by omega) r1.1 r1.2]
    simp only [referenceDecode, List.foldl_cons, List.foldl_nil, List.length_cons,
      List.length_nil, leadPayloadMask, and_1F, shl6_or,
      ReadResult.returned.injEq, Option.some.injEq, and_true]
    omega
  | [b1, b2], hlen, hc =>
    have r0 := hs.2.2.1.1 hlen
    have r1 := continuation_range b1 (hc b1 (by simp))
    have r2 := continuation_range b2 (hc b2 (by simp))
    simp only [List.cons_append, List.nil_append]
    rw [converter_char.read_three b0 b1 b2 rest r0.1 (by omega) r1.1 r1.2 r2.1 r2.2]
    simp only [referenceDecode, List.foldl_cons, List.foldl_nil, List.length_cons,
      List.length_nil, leadPayloadMask, and_0F, shl6_or,
      ReadResult.returned.injEq, Option.some.injEq, and_true]
    omega
  | [b1, b2, b3], hlen, hc =>
    have r0 := hs.2.2.2.1.1 hlen
    have r1 := continuation_range b1 (hc b1 (by simp))
    have r2 := continuation_range b2 (hc b2 (by simp))
    have r3 := continuation_range b3 (hc b3 (by simp))
    simp only [List.cons_append, List.nil_append]
    rw [converter_char.read_four b0 b1 b2 b3 rest r0.1 (by omega) r1.1 r1.2 r2.1 r2.2
      r3.1 r3.2]
    simp only [referenceDecode, List.foldl_cons, List.foldl_nil, List.length_cons,
      List.length_nil, leadPayloadMask, and_07, shl6_or,
      ReadResult.returned.injEq, Option.some.injEq, and_true]
    omega
  | [b1, b2, b3, b4], hlen, hc =>
    have r0 := hs.2.2.2.2.1.1 hlen
    have r1 := continuation_range b1 (hc b1 (by simp))
    have r2 := continuation_range b2 (hc b2 (by simp))
    have r3 := continuation_range b3 (hc b3 (by simp))
    have r4 := continuation_range b4 (hc b4 (by simp))
    simp only [List.cons_append, List.nil_append]
    rw [converter_char.read_five b0 b1 b2 b3 b4 rest r0.1 (by omega) r1.1 r1.2 r2.1 r2.2
      r3.1 r3.2 r4.1 r4.2]
    simp only [referenceDecode, List.foldl_cons, List.foldl_nil, List.length_cons,
      List.length_nil, leadPayloadMask, and_03, shl6_or,
      ReadResult.returned.injEq, Option.some.injEq, and_true]
    omega
  | [b1, b2, b3, b4, b5], hlen, hc =>
    have r0 := hs.2.2.2.2.2.1.1 hlen
    have r1 := continuation_range b1 (hc b1 (by simp))
    have r2 := continuation_range b2 (hc b2 (by simp))
    have r3 := continuation_range b3 (hc b3 (by simp))
    have r4 := continuation_range b4 (hc b4 (by simp))
    have r5 := continuation_range b5 (hc b5 (by simp))
    simp only [List.cons_append, List.nil_append]
    rw [converter_char.read_six b0 b1 b2 b3 b4 b5 rest r0.1 (by omega) r1.1 r1.2 r2.1 r2.2
      r3.1 r3.2 r4.1 r4.2 r5.1 r5.2]
    simp only [referenceDecode, List.foldl_cons, List.foldl_nil, List.length_cons,
      List.length_nil, leadPayloadMask, and_01, shl6_or,
      ReadResult.returned.injEq, Option.some.injEq, and_true]
    omega
  | _ :: _ :: _ :: _ :: _ :: _ :: _, hlen, _ =>
    have := hs.2.2.2.2.2.2
    simp only [List.length_cons] at hlen
    omega

theorem read_bad_continuation (b0 : Nat) (good : List Nat) (bad : Nat) (rest : List Nat)
    (hb0 : b0 < 256) (hgood : ∀ b ∈ good, b >>> 6 = 2)
    (hk : good.length + 2 ≤ sequenceLength b0) (hbad : (bad % 256) >>> 6 ≠ 2) :
    converter_char.read (b0 :: good ++ bad :: rest) = .returned none rest := by
  have hs := sequenceLength_cases b0
  have e0 : b0 % 256 = b0 := by omega
  have hb : ¬ bad % 256 / 64 = 2 := by
    rw [Nat.shiftRight_eq_div_pow] at hbad
    exact hbad
  have hrange : 0xC0 ≤ b0 ∧ b0 ≤ 0xFD := by
    unfold sequenceLength at hk
    split_ifs at hk <;> omega
  match good, hgood, hk with
  | [], _, hk =>
    simp only [List.cons_append, List.nil_append, converter_char.read, e0,
      Nat.shiftRight_eq_div_pow, Nat.reducePow, ne_eq, hb, not_false_eq_true, if_true]
    split_ifs <;> first | rfl | omega
  | [b1], hgood, hk =>
    have r1 := continuation_range b1 (hgood b1 (by simp))
    have e1 : b1 % 256 = b1 := by omega
    have s1 : b1 / 64 = 2 := by omega
    have h3 : 3 ≤ sequenceLength b0 := hk
    have n3 : ¬ b0 < 0xE0 := by
      intro hlt
      have := hs.2.1.2 ⟨hrange.1, by omega⟩
      omega
    simp only [List.cons_append, List.nil_append, converter_char.read, e0, e1, s1,
      Nat.shiftRight_eq_div_pow, Nat.reducePow, ne_eq, hb, not_false_eq_true, if_true,
      not_true_eq_false, if_false]
    split_ifs <;> first | rfl | omega
  | [b1, b2], hgood, hk =>
    have r1 := continuation_range b1 (hgood b1 (by simp))
    have r2 := continuation_range b2 (hgood b2 (by simp))
    have e1 : b1 % 256 = b1 := by omega
    have s1 : b1 / 64 = 2 := by omega
    have e2 : b2 % 256 = b2 := by omega
    have s2 : b2 / 64 = 2 := by omega
    have h4 : 4 ≤ sequenceLength b0 := hk
    have n4 : ¬ b0 < 0xF0 := by
      intro hlt
      by_cases c : b0 < 0xE0
      · have := hs.2.1.2 ⟨hrange.1, by omega⟩
        omega
      · have := hs.2.2.1.2 ⟨by omega, by omega⟩
        omega
    simp only [List.cons_append, List.nil_append, converter_char.read, e0, e1, s1, e2, s2,
      Nat.shiftRight_eq_div_pow, Nat.reducePow, ne_eq, hb, not_false_eq_true, if_true,
      not_true_eq_false, if_false]
    split_ifs <;> first | rfl | omega
  | [b1, b2, b3], hgood, hk =>
    have r1 := continuation_range b1 (hgood b1 (by simp))
    have r2 := continuation_range b2 (hgood b2 (by simp))
    have r3 := continuation_range b3 (hgood b3 (by simp))
    have e1 : b1 % 256 = b1 := by omega
    have s1 : b1 / 64 = 2 := by omega
    have e2 : b2 % 256 = b2 := by omega
    have s2 : b2 / 64 = 2 := by omega
    have e3 : b3 % 256 = b3 := by omega
    have s3 : b3 / 64 = 2 := by omega
    have h5 : 5 ≤ sequenceLength b0 := hk
    have n5 : ¬ b0 < 0xF8 := by
      intro hlt
      by_cases c : b0 < 0xE0
      · have := hs.2.1.2 ⟨hrange.1, by omega⟩
        omega
      · by_cases c2 : b0 < 0xF0
        · have := hs.2.2.1.2 ⟨by omega, by omega⟩
          omega
        · have := hs.2.2.2.1.2 ⟨by omega, by omega⟩
          omega
    simp only [List.cons_append, List.nil_append, converter_char.read, e0, e1, s1, e2, s2,
      e3, s3, Nat.shiftRight_eq_div_pow, Nat.reducePow, ne_eq, hb, not_false_eq_true, if_true,
      not_true_eq_false, if_false]
    split_ifs <;> first | rfl | omega
  | [b1, b2, b3, b4], hgood, hk =>
    have r1 := continuation_range b1 (hgood b1 (by simp))
    have r2 := continuation_range b2 (hgood b2 (by simp))
    have r3 := continuation_range b3 (hgood b3 (by simp))
    have r4 := continuation_range b4 (hgood b4 (by simp))
    have e1 : b1 % 256 = b1 := by omega
    have s1 : b1 / 64 = 2 := by omega
    have e2 : b2 % 256 = b2 := by omega
    have s2 : b2 / 64 = 2 := by omega
    have e3 : b3 % 256 = b3 := by omega
    have s3 : b3 / 64 = 2 := by omega
    have e4 : b4 % 256 = b4 := by omega
    have s4 : b4 / 64 = 2 := by omega
    have h6 : 6 ≤ sequenceLength b0 := hk
    have n6 : ¬ b0 < 0xFC := by
      intro hlt
      by_cases c : b0 < 0xE0
      · have := hs.2.1.2 ⟨hrange.1, by omega⟩
        omega
      · by_cases c2 : b0 < 0xF0
        · have := hs.2.2.1.2 ⟨by omega, by omega⟩
          omega
        · by_cases c3 : b0 < 0xF8
          · have := hs.2.2.2.1.2 ⟨by omega, by omega⟩
            omega
          · have := hs.2.2.2.2.1.2 ⟨by omega, by omega⟩
            omega
    simp only [List.cons_append, List.nil_append, converter_char.read, e0, e1, s1, e2, s2,
      e3, s3, e4, s4, Nat.shiftRight_eq_div_pow, Nat.reducePow, ne_eq, hb, not_false_eq_true,
      if_true, not_true_eq_false, if_false]
    split_ifs <;> first | rfl | omega
  | _ :: _ :: _ :: _ :: _ :: _, _, hk =>
    have := hs.2.2.2.2.2.2
    simp only [List.length_cons] at hk
    omega

theorem utf8_cursor_suffix (c0 : Nat) (i1 : List Nat) :
    ∀ c, (converter_char.read (c0 :: i1)).cursor? = some c → c <:+ i1 := by
  by_cases h1 : c0 % 256 < 0x80
  · simp [converter_char.read, h1, ReadResult.cursor?]
  by_cases h2 : c0 % 256 < 0xC0
  · simp [converter_char.read, h1, h2, ReadResult.cursor?]
  by_cases h3 : c0 % 256 < 0xE0
  · rcases i1 with _ | ⟨c1, i2⟩ <;>
      simp only [converter_char.read, h1, h2, h3, if_true, if_false] <;>
      (try split_ifs) <;>
      simp [ReadResult.cursor?, List.suffix_cons_iff]
  by_cases h4 : c0 % 256 < 0xF0
  · rcases i1 with _ | ⟨c1, _ | ⟨c2, i3⟩⟩ <;>
      simp only [converter_char.read, h1, h2, h3, h4, if_true, if_false] <;>
      (try split_ifs) <;>
      simp [ReadResult.cursor?, List.suffix_cons_iff]
  by_cases h5 : c0 % 256 < 0xF8
  · rcases i1 with _ | ⟨c1, _ | ⟨c2, _ | ⟨c3, i4⟩⟩⟩ <;>
      simp only [converter_char.read, h1, h2, h3, h4, h5, if_true, if_false] <;>
      (try split_ifs) <;>
      simp [ReadResult.cursor?, List.suffix_cons_iff]
  by_cases h6 : c0 % 256 < 0xFC
  · rcases i1 with _ | ⟨c1, _ | ⟨c2, _ | ⟨c3, _ | ⟨c4, i5⟩⟩⟩⟩ <;>
      simp only [converter_char.read, h1, h2, h3, h4, h5, h6, if_true, if_false] <;>
      (try split_ifs) <;>
      simp [ReadResult.cursor?, List.suffix_cons_iff]
  by_cases h7 : c0 % 256 < 0xFE
  · rcases i1 with _ | ⟨c1, _ | ⟨c2, _ | ⟨c3, _ | ⟨c4, _ | ⟨c5, i6⟩⟩⟩⟩⟩ <;>
      simp only [converter_char.read, h1, h2, h3, h4, h5, h6, h7, if_true, if_false] <;>
      (try split_ifs) <;>
      simp [ReadResult.cursor?, List.suffix_cons_iff]
  simp [converter_char.read, h1, h2, h3, h4, h5, h6, h7, ReadResult.cursor?]

theorem utf16_cursor_suffix (c0 : Nat) (i1 : List Nat) :
    ∀ c, (converter_char16_t.read (c0 :: i1)).cursor? = some c → c <:+ i1 := by
  rcases i1 with _ | ⟨c1, i2⟩ <;>
    simp only [converter_char16_t.read] <;> (try split_ifs) <;>
    simp [ReadResult.cursor?, List.suffix_cons_iff]

theorem read_cursor_suffix_tail (E : CharType) (c0 : Nat) (i1 : List Nat) :
    ∀ c, (read E (c0 :: i1)).cursor? = some c → c <:+ i1 := by
  cases E
  · exact utf8_cursor_suffix c0 i1
  · exact utf16_cursor_suffix c0 i1
  · simp [read, converter_char32_t.read, ReadResult.cursor?]

theorem read_cursor_lt (E : CharType) (input : List Nat) (h : input ≠ []) :
    ∀ c, (read E input).cursor? = some c → c.length < input.length := by
  obtain ⟨c0, i1, rfl⟩ := List.exists_cons_of_ne_nil h
  intro c hc
  have := (read_cursor_suffix_tail E c0 i1 c hc).length_le
  rw [List.length_cons]
  omega

theorem read_cursor_suffix (E : CharType) (input : List Nat) :
    ∀ c, (read E input).cursor? = some c → ∃ pre, input = pre ++ c := by
  intro c hc
  cases input with
  | nil => cases E <;> simp [read, converter_char.read, converter_char16_t.read,
      converter_char32_t.read, ReadResult.cursor?] at hc
  | cons c0 i1 =>
    obtain ⟨t, ht⟩ := read_cursor_suffix_tail E c0 i1 c hc
    exact ⟨c0 :: t, by rw [List.cons_append, ht]⟩

theorem unitsConsumed_of_cursor (input : List Nat) (r : ReadResult) (c : List Nat)
    (h : r.cursor? = some c) : unitsConsumed input r = input.length - c.length := by
  cases r with
  | returned v c2 =>
    simp only [ReadResult.cursor?, Option.some.injEq] at h
    rw [← h]
    rfl
  | thrown c2 =>
    simp only [ReadResult.cursor?, Option.some.injEq] at h
    rw [← h]
    rfl
  | pastEnd => simp [ReadResult.cursor?] at h

theorem read_consumes_one (E : CharType) (input : List Nat) (h : input ≠ []) :
    1 ≤ unitsConsumed input (read E input) := by
  cases hr : read E input with
  | returned v c =>
    have := read_cursor_lt E input h c (by rw [hr]; rfl)
    simp only [unitsConsumed]
    omega
  | thrown c =>
    have := read_cursor_lt E input h c (by rw [hr]; rfl)
    simp only [unitsConsumed]
    omega
  | pastEnd =>
    simp only [unitsConsumed]
    omega

/-! ## Properties of the codec -/

/-- C1: for every Unicode scalar value `cp` and each of the 8-, 16- and 32-bit encodings,
    `read` applied at the start of the units that `write` produced into an empty output
    (whatever follows them) returns `some cp` and moves the cursor by exactly the number of
    units that `write` returned. -/
theorem write_then_read_round_trip (E : CharType) (cp : Nat) (rest : List Nat)
    (h : IsScalar cp) :
    read E ((write E cp []).2 ++ rest) = .returned (some cp) rest ∧
    unitsConsumed ((write E cp []).2 ++ rest) (read E ((write E cp []).2 ++ rest))
      = (write E cp []).1 := by
  have hrd := read_write_scalar E cp rest h
  refine ⟨hrd, ?_⟩
  rw [hrd]
  simp [unitsConsumed, write_length]

theorem write_then_read_round_trip_witness :
    IsScalar 0x20AC ∧
    (read .char ((write .char 0x20AC []).2 ++ []) = .returned (some 0x20AC) [] ∧
     unitsConsumed ((write .char 0x20AC []).2 ++ [])
        (read .char ((write .char 0x20AC []).2 ++ [])) = (write .char 0x20AC []).1) :=
  ⟨by decide, write_then_read_round_trip .char 0x20AC [] (by decide)⟩

/-- C2 (as stated it fails): the overlong two-byte form `0xC0 0x80` is not rejected, `read`
    returns the codepoint 0 for it; the overlong three- and four-byte forms of U+0000 are
    accepted in the same way. -/
theorem overlong_C0_80_is_accepted :
    converter_char.read [0xC0, 0x80] ≠ .returned none [] ∧
    converter_char.read [0xC0, 0x80] = .returned (some 0) [] ∧
    converter_char.read [0xE0, 0x80, 0x80] = .returned (some 0) [] ∧
    converter_char.read [0xF0, 0x80, 0x80, 0x80] = .returned (some 0) [] := by
  decide

/-- C2 (amended): `converter<char>::read` does not check for overlong forms.  For every
    multi-byte sequence with correct lead and continuation bit patterns whose payload would
    fit a shorter form, `read` returns that payload as the codepoint. -/
theorem utf8_read_accepts_overlong (b0 : Nat) (conts rest : List Nat) (hb0 : b0 < 256)
    (hlen : sequenceLength b0 = conts.length + 1) (hc : ∀ b ∈ conts, b >>> 6 = 2)
    (hmulti : 1 ≤ conts.length)
    (hover : referenceDecode b0 conts ≤ shorterFormMax (conts.length + 1)) :
    ∃ v, converter_char.read (b0 :: conts ++ rest) = .returned (some v) rest ∧
      v = referenceDecode b0 conts ∧ v ≤ shorterFormMax (sequenceLength b0) ∧
      2 ≤ sequenceLength b0 := by
  refine ⟨referenceDecode b0 conts, read_eq_referenceDecode b0 conts rest hb0 hlen hc, rfl, ?_, ?_⟩
  · rw [hlen]
    exact hover
  · omega

theorem utf8_read_accepts_overlong_witness :
    ∃ v, converter_char.read (0xE0 :: [0x9F, 0xBF] ++ [0x41]) = .returned (some v) [0x41] ∧
      v = referenceDecode 0xE0 [0x9F, 0xBF] ∧ v ≤ shorterFormMax (sequenceLength 0xE0) ∧
      2 ≤ sequenceLength 0xE0 :=
  utf8_read_accepts_overlong 0xE0 [0x9F, 0xBF] [0x41] (by decide) (by decide) (by decide)
    (by decide) (by decide)

/-- C3: `converter<char16_t>::write` returns 0 and leaves the output untouched exactly when
    the codepoint is a surrogate or at least `0x110000`; below `0x10000` (surrogates apart) it
    returns 1 and appends the codepoint itself; from `0x10000` to `0x10FFFF` it returns 2 and
    appends exactly two units.  In particular `write(0xD800)` returns 0. -/
theorem utf16_write_rejection_exact (cp : Nat) (out : List Nat) :
    (((converter_char16_t.write cp out).1 = 0 ∧ (converter_char16_t.write cp out).2 = out)
        ↔ ((0xD800 ≤ cp ∧ cp ≤ 0xDFFF) ∨ 0x110000 ≤ cp)) ∧
    ((converter_char16_t.write cp out).1 = 0 ↔ ((0xD800 ≤ cp ∧ cp ≤ 0xDFFF) ∨ 0x110000 ≤ cp)) ∧
    (cp < 0x10000 ∧ ¬ (0xD800 ≤ cp ∧ cp ≤ 0xDFFF) →
        converter_char16_t.write cp out = (1, out ++ [cp])) ∧
    (0x10000 ≤ cp ∧ cp ≤ 0x10FFFF →
        converter_char16_t.write cp out
          = (2, out ++ [0xD7C0 + (cp >>> 10), 0xDC00 + (cp &&& 0x3FF)])) ∧
    (converter_char16_t.write 0xD800 out).1 = 0 := by
  have key : (converter_char16_t.write cp out).1 = 0 →
      ((0xD800 ≤ cp ∧ cp ≤ 0xDFFF) ∨ 0x110000 ≤ cp) := by
    intro h0
    by_contra hn
    by_cases c : cp < 0x10000
    · rw [converter_char16_t.write_bmp cp out c (by omega)] at h0
      simp at h0
    · rw [converter_char16_t.write_pair cp out (by omega) (by omega)] at h0
      simp at h0
  have back : ((0xD800 ≤ cp ∧ cp ≤ 0xDFFF) ∨ 0x110000 ≤ cp) →
      converter_char16_t.write cp out = (0, out) := by
    rintro (⟨h1, h2⟩ | h)
    · exact converter_char16_t.write_surrogate cp out h1 h2
    · exact converter_char16_t.write_too_large cp out h
  refine ⟨⟨fun h => key h.1, fun h => by rw [back h]; exact ⟨rfl, rfl⟩⟩,
    ⟨key, fun h => by rw [back h]⟩, ?_, ?_, ?_⟩
  · rintro ⟨h1, h2⟩
    exact converter_char16_t.write_bmp cp out h1 h2
  · rintro ⟨h1, h2⟩
    rw [converter_char16_t.write_pair cp out h1 h2, and_3FF, Nat.shiftRight_eq_div_pow]
  · rw [converter_char16_t.write_surrogate 0xD800 out (by decide) (by decide)]

theorem utf16_write_rejection_exact_witness :
    converter_char16_t.write 0x1F600 [0x41] = (2, [0x41, 0xD83D, 0xDE00]) ∧
    converter_char16_t.write 0xE9 [] = (1, [0xE9]) ∧
    (converter_char16_t.write 0xDFFF [0x41]).1 = 0 := by
  have h := utf16_write_rejection_exact 0x1F600 [0x41]
  have h2 := utf16_write_rejection_exact 0xE9 []
  have h3 := utf16_write_rejection_exact 0xDFFF [0x41]
  refine ⟨?_, ?_, ?_⟩
  · rw [h.2.2.2.1 (by decide)]; decide
  · rw [h2.2.2.1 (by decide)]; rfl
  · exact h3.2.1.2 (by decide)

/-- C4: `converter<char16_t>::read` follows the UTF-16 rules: a first unit below `0xD800` or
    in `[0xE000, 0xFFFF]` is returned as is; a high surrogate followed by a low surrogate
    gives `0x10000 + ((u0 - 0xD800) << 10) + (u1 - 0xDC00)`; a high surrogate followed by a
    unit that is not a low surrogate gives no value; a low surrogate as first unit gives no
    value.  `0xD800 0xDC00` gives `0x10000`; `0xD800 0x0041` gives no value. -/
theorem utf16_read_rules (u0 u1 : Nat) (rest : List Nat) :
    ((u0 < 0xD800 ∨ (0xE000 ≤ u0 ∧ u0 ≤ 0xFFFF)) →
        converter_char16_t.read (u0 :: rest) = .returned (some u0) rest) ∧
    ((0xD800 ≤ u0 ∧ u0 ≤ 0xDBFF) ∧ (0xDC00 ≤ u1 ∧ u1 ≤ 0xDFFF) →
        converter_char16_t.read (u0 :: u1 :: rest)
          = .returned (some (0x10000 + ((u0 - 0xD800) <<< 10) + (u1 - 0xDC00))) rest) ∧
    ((0xD800 ≤ u0 ∧ u0 ≤ 0xDBFF) ∧ ¬ (0xDC00 ≤ u1 ∧ u1 ≤ 0xDFFF) →
        converter_char16_t.read (u0 :: u1 :: rest) = .returned none rest) ∧
    ((0xDC00 ≤ u0 ∧ u0 ≤ 0xDFFF) →
        converter_char16_t.read (u0 :: rest) = .returned none rest) ∧
    converter_char16_t.read [0xD800, 0xDC00] = .returned (some 0x10000) [] ∧
    converter_char16_t.read [0xD800, 0x0041] = .returned none [] := by
  refine ⟨?_, ?_, ?_, ?_, ?_, ?_⟩
  · intro h
    exact converter_char16_t.read_bmp u0 rest (by omega)
  · rintro ⟨⟨h1, h2⟩, h3, h4⟩
    rw [converter_char16_t.read_pair u0 u1 rest h1 h2 h3 h4, Nat.shiftLeft_eq]
  · rintro ⟨⟨h1, h2⟩, h3⟩
    exact converter_char16_t.read_unpaired u0 u1 rest h1 h2 h3
  · rintro ⟨h1, h2⟩
    exact converter_char16_t.read_low_first u0 rest h1 h2
  · decide
  · decide

theorem utf16_read_rules_witness :
    converter_char16_t.read [0xD83D, 0xDE00, 0x41] = .returned (some 0x1F600) [0x41] ∧
    converter_char16_t.read [0xFFFD, 0x41] = .returned (some 0xFFFD) [0x41] ∧
    converter_char16_t.read [0xDBFF, 0xD800] = .returned none [] ∧
    converter_char16_t.read [0xDC00, 0x41] = .returned none [0x41] := by
  have h := utf16_read_rules 0xD83D 0xDE00 [0x41]
  have h2 := utf16_read_rules 0xFFFD 0 [0x41]
  have h3 := utf16_read_rules 0xDBFF 0xD800 []
  have h4 := utf16_read_rules 0xDC00 0 [0x41]
  refine ⟨?_, h2.1 (by decide), h3.2.2.1 (by decide), h4.2.2.2.1 (by decide)⟩
  rw [h.2.1 (by decide)]
  decide

/-- C5: for every lead byte `b0` and the length `n` it selects (1 to 6), if the following
    `n - 1` bytes all have top two bits `10`, then `converter<char>::read` returns the value
    of the mask-and-shift reference decoder (the payload bits of the lead byte followed by the
    low six bits of each continuation byte), which fits 32 bits, and consumes `n` units.
    `0x7F` gives `0x7F` in 1 unit and `0xE0 0xA0 0x80` gives `0x0800` in 3 units. -/
theorem utf8_read_recovers_payload (b0 : Nat) (conts rest : List Nat) (hb0 : b0 < 256)
    (hlen : sequenceLength b0 = conts.length + 1) (hc : ∀ b ∈ conts, b >>> 6 = 2) :
    converter_char.read (b0 :: conts ++ rest)
      = .returned (some (referenceDecode b0 conts % 4294967296)) rest ∧
    referenceDecode b0 conts < 4294967296 ∧
    unitsConsumed (b0 :: conts ++ rest) (converter_char.read (b0 :: conts ++ rest))
      = sequenceLength b0 ∧
    converter_char.read [0x7F] = .returned (some 0x7F) [] ∧
    unitsConsumed [0x7F] (converter_char.read [0x7F]) = 1 ∧
    converter_char.read [0xE0, 0xA0, 0x80] = .returned (some 0x0800) [] ∧
    unitsConsumed [0xE0, 0xA0, 0x80] (converter_char.read [0xE0, 0xA0, 0x80]) = 3 := by
  have hrd := read_eq_referenceDecode b0 conts rest hb0 hlen hc
  have hlt : referenceDecode b0 conts < 4294967296 := by
    have hs := sequenceLength_cases b0
    have h6 : conts.length + 1 ≤ 6 := hlen ▸ hs.2.2.2.2.2.2
    match conts, hc, h6 with
    | [], _, _ =>
      simp only [referenceDecode, List.foldl_nil, List.length_nil, leadPayloadMask, and_7F]
      omega
    | [b1], _, _ =>
      simp only [referenceDecode, List.foldl_cons, List.foldl_nil, List.length_cons,
        List.length_nil, leadPayloadMask, and_1F, shl6_or]
      omega
    | [b1, b2], _, _ =>
      simp only [referenceDecode, List.foldl_cons, List.foldl_nil, List.length_cons,
        List.length_nil, leadPayloadMask, and_0F, shl6_or]
      omega
    | [b1, b2, b3], _, _ =>
      simp only [referenceDecode, List.foldl_cons, List.foldl_nil, List.length_cons,
        List.length_nil, leadPayloadMask, and_07, shl6_or]
      omega
    | [b1, b2, b3, b4], _, _ =>
      simp only [referenceDecode, List.foldl_cons, List.foldl_nil, List.length_cons,
        List.length_nil, leadPayloadMask, and_03, shl6_or]
      omega
    | [b1, b2, b3, b4, b5], _, _ =>
      simp only [referenceDecode, List.foldl_cons, List.foldl_nil, List.length_cons,
        List.length_nil, leadPayloadMask, and_01, shl6_or]
      omega
    | _ :: _ :: _ :: _ :: _ :: _ :: _, _, h6 =>
      simp only [List.length_cons] at h6
      omega
  refine ⟨?_, hlt, ?_, by decide, by decide, by decide, by decide⟩
  · rw [hrd, Nat.mod_eq_of_lt hlt]
  · rw [hrd, hlen]
    simp only [unitsConsumed, List.length_cons, List.length_append]
    omega

theorem utf8_read_recovers_payload_witness :
    converter_char.read (0xF0 :: [0x9F, 0x98, 0x80] ++ [0x41])
      = .returned (some (referenceDecode 0xF0 [0x9F, 0x98, 0x80] % 4294967296)) [0x41] ∧
    referenceDecode 0xF0 [0x9F, 0x98, 0x80] = 0x1F600 :=
  ⟨(utf8_read_recovers_payload 0xF0 [0x9F, 0x98, 0x80] [0x41] (by decide) (by decide)
      (by decide)).1, by decide⟩

/-- C6 (the code at the failing input): when the first byte is in the continuation range
    `0x80..0xBF`, `converter<char>::read` does not return the absent value: it leaves through
    `throw nullopt`, with the cursor advanced by one unit. -/
theorem utf8_read_continuation_lead_throws (b0 : Nat) (rest : List Nat)
    (h : 0x80 ≤ b0 % 256 ∧ b0 % 256 ≤ 0xBF) :
    converter_char.read (b0 :: rest) = .thrown rest ∧
    converter_char.read (b0 :: rest) ≠ .returned none rest ∧
    unitsConsumed (b0 :: rest) (converter_char.read (b0 :: rest)) = 1 := by
  have n1 : ¬ b0 % 256 < 0x80 := by omega
  have n2 : b0 % 256 < 0xC0 := by omega
  have e : converter_char.read (b0 :: rest) = .thrown rest := by
    simp only [converter_char.read, if_neg n1, if_pos n2]
  refine ⟨e, ?_, ?_⟩
  · rw [e]
    simp
  · rw [e]
    simp [unitsConsumed]

theorem utf8_read_continuation_lead_throws_witness :
    converter_char.read [0x80] = .thrown [] ∧
    converter_char.read [0x80] ≠ .returned none [] ∧
    unitsConsumed [0x80] (converter_char.read [0x80]) = 1 :=
  utf8_read_continuation_lead_throws 0x80 [] (by decide)

/-- C7 (the code at the failing input): `convert_to<char16_t>` applied to the bytes
    `0x80 0x41` does not drop the stray byte and continue: the exception thrown by `read`
    leaves `convert_to` before any unit is written.  A malformed lead byte `0xFF` in the same
    place is dropped and the conversion continues. -/
theorem convert_to_stray_continuation_aborts :
    convert_to .char16_t .char [0x80, 0x41] = .thrown [] ∧
    convert_to .char16_t .char [0x80, 0x41] ≠ .done [0x41] ∧
    convert_to .char32_t .char [0x41, 0x80, 0x42] = .thrown [0x41] ∧
    convert_to .char16_t .char [0xFF, 0x41] = .done [0x41] := by
  decide

/-- C8: for every list of Unicode scalar values, `convert_to<char16_t>` applied to its 8-bit
    encoding returns exactly its 16-bit encoding, and `convert_to<char>` applied to that
    result returns the original bytes.  The bytes `0xC3 0xA9` give the single unit `0x00E9`,
    which gives `0xC3 0xA9` back. -/
theorem transcode_round_trip (cps : List Nat) (h : ∀ cp ∈ cps, IsScalar cp) :
    convert_to .char16_t .char (encode .char cps) = .done (encode .char16_t cps) ∧
    convert_to .char .char16_t (encode .char16_t cps) = .done (encode .char cps) ∧
    convert_to .char16_t .char [0xC3, 0xA9] = .done [0x00E9] ∧
    convert_to .char .char16_t [0x00E9] = .done [0xC3, 0xA9] := by
  refine ⟨?_, ?_, by decide, by decide⟩
  · have := convertLoop_encode .char .char16_t cps h (encode .char cps).length [] (le_refl _)
    simpa [convert_to] using this
  · have := convertLoop_encode .char16_t .char cps h (encode .char16_t cps).length []
      (le_refl _)
    simpa [convert_to] using this

theorem transcode_round_trip_witness :
    (∀ cp ∈ [0x41, 0xE9, 0x20AC, 0x1F600], IsScalar cp) ∧
    convert_to .char16_t .char (encode .char [0x41, 0xE9, 0x20AC, 0x1F600])
      = .done (encode .char16_t [0x41, 0xE9, 0x20AC, 0x1F600]) ∧
    convert_to .char .char16_t (encode .char16_t [0x41, 0xE9, 0x20AC, 0x1F600])
      = .done (encode .char [0x41, 0xE9, 0x20AC, 0x1F600]) :=
  have hs : ∀ cp ∈ [0x41, 0xE9, 0x20AC, 0x1F600], IsScalar cp := by decide
  ⟨hs, (transcode_round_trip [0x41, 0xE9, 0x20AC, 0x1F600] hs).1,
    (transcode_round_trip [0x41, 0xE9, 0x20AC, 0x1F600] hs).2.1⟩

/-- C9: for every non-empty input and each encoding, `read` moves the cursor by at least one
    unit; when the cursor is still inside the input after the call, the units consumed are a
    non-empty prefix of the input and the cursor is what follows them.  For the 8-bit encoding
    a lead byte in `0x80..0xBF` or `0xFE..0xFF` consumes 1 unit, and a failure at the `k`-th
    continuation byte (the `k - 1` before it being well formed) returns no value and consumes
    `k + 1` units; for the 16-bit encoding a low surrogate as first unit consumes 1 unit and a
    high surrogate followed by a unit that is not a low surrogate consumes 2 units. -/
theorem read_cursor_advance :
    (∀ (E : CharType) (input : List Nat), input ≠ [] →
        1 ≤ unitsConsumed input (read E input) ∧
        ∀ c, (read E input).cursor? = some c →
          ∃ pre, input = pre ++ c ∧ pre.length = unitsConsumed input (read E input)) ∧
    (∀ (b0 : Nat) (rest : List Nat),
        b0 < 256 → (0x80 ≤ b0 ∧ b0 ≤ 0xBF) ∨ (0xFE ≤ b0 ∧ b0 ≤ 0xFF) →
        unitsConsumed (b0 :: rest) (converter_char.read (b0 :: rest)) = 1) ∧
    (∀ (b0 : Nat) (good : List Nat) (bad : Nat) (rest : List Nat),
        b0 < 256 → (∀ b ∈ good, b >>> 6 = 2) → good.length + 2 ≤ sequenceLength b0 →
        (bad % 256) >>> 6 ≠ 2 →
        converter_char.read (b0 :: good ++ bad :: rest) = .returned none rest ∧
        unitsConsumed (b0 :: good ++ bad :: rest)
          (converter_char.read (b0 :: good ++ bad :: rest)) = (good.length + 1) + 1) ∧
    (∀ (u0 : Nat) (rest : List Nat), 0xDC00 ≤ u0 ∧ u0 ≤ 0xDFFF →
        converter_char16_t.read (u0 :: rest) = .returned none rest ∧
        unitsConsumed (u0 :: rest) (converter_char16_t.read (u0 :: rest)) = 1) ∧
    (∀ (u0 u1 : Nat) (rest : List Nat),
        0xD800 ≤ u0 ∧ u0 ≤ 0xDBFF → ¬ (0xDC00 ≤ u1 ∧ u1 ≤ 0xDFFF) →
        converter_char16_t.read (u0 :: u1 :: rest) = .returned none rest ∧
        unitsConsumed (u0 :: u1 :: rest) (converter_char16_t.read (u0 :: u1 :: rest)) = 2) := by
  refine ⟨?_, ?_, ?_, ?_, ?_⟩
  · intro E input hne
    refine ⟨read_consumes_one E input hne, ?_⟩
    intro c hc
    obtain ⟨pre, hpre⟩ := read_cursor_suffix E input c hc
    refine ⟨pre, hpre, ?_⟩
    rw [unitsConsumed_of_cursor input _ c hc]
    have hl : input.length = pre.length + c.length := by
      rw [hpre, List.length_append]
    omega
  · intro b0 rest hb0 h
    have e0 : b0 % 256 = b0 := by omega
    rcases h with h | h
    · have n1 : ¬ b0 % 256 < 0x80 := by omega
      have n2 : b0 % 256 < 0xC0 := by omega
      simp [converter_char.read, n1, n2, unitsConsumed]
    · have n1 : ¬ b0 % 256 < 0x80 := by omega
      have n2 : ¬ b0 % 256 < 0xC0 := by omega
      have n3 : ¬ b0 % 256 < 0xE0 := by omega
      have n4 : ¬ b0 % 256 < 0xF0 := by omega
      have n5 : ¬ b0 % 256 < 0xF8 := by omega
      have n6 : ¬ b0 % 256 < 0xFC := by omega
      have n7 : ¬ b0 % 256 < 0xFE := by omega
      simp [converter_char.read, n1, n2, n3, n4, n5, n6, n7, unitsConsumed]
  · intro b0 good bad rest hb0 hgood hk hbad
    have e := read_bad_continuation b0 good bad rest hb0 hgood hk hbad
    refine ⟨e, ?_⟩
    rw [e]
    simp only [unitsConsumed, List.length_cons, List.length_append]
    omega
  · rintro u0 rest ⟨h1, h2⟩
    have e := converter_char16_t.read_low_first u0 rest h1 h2
    refine ⟨e, ?_⟩
    rw [e]
    simp [unitsConsumed]
  · rintro u0 u1 rest ⟨h1, h2⟩ h3
    have e := converter_char16_t.read_unpaired u0 u1 rest h1 h2 h3
    refine ⟨e, ?_⟩
    rw [e]
    simp only [unitsConsumed, List.length_cons]
    omega

theorem read_cursor_advance_witness :
    (1 ≤ unitsConsumed [0xC3, 0xA9, 0x41] (read .char [0xC3, 0xA9, 0x41]) ∧
      ∀ c, (read .char [0xC3, 0xA9, 0x41]).cursor? = some c →
        ∃ pre, [0xC3, 0xA9, 0x41] = pre ++ c ∧
          pre.length = unitsConsumed [0xC3, 0xA9, 0x41] (read .char [0xC3, 0xA9, 0x41])) ∧
    (1 ≤ unitsConsumed [0xC3] (read .char [0xC3])) ∧
    unitsConsumed [0xC3] (read .char [0xC3]) = 2 ∧
    unitsConsumed [0xBF, 0x41] (converter_char.read [0xBF, 0x41]) = 1 ∧
    (converter_char.read (0xF0 :: [0x9F, 0x98] ++ 0x41 :: [0x42]) = .returned none [0x42] ∧
      unitsConsumed (0xF0 :: [0x9F, 0x98] ++ 0x41 :: [0x42])
        (converter_char.read (0xF0 :: [0x9F, 0x98] ++ 0x41 :: [0x42])) = (2 + 1) + 1) ∧
    unitsConsumed [0xD800, 0x41, 0x42] (converter_char16_t.read [0xD800, 0x41, 0x42]) = 2 :=
  ⟨read_cursor_advance.1 .char [0xC3, 0xA9, 0x41] (by decide),
   (read_cursor_advance.1 .char [0xC3] (by decide)).1,
   by decide,
   read_cursor_advance.2.1 0xBF [0x41] (by decide) (by decide),
   read_cursor_advance.2.2.1 0xF0 [0x9F, 0x98] 0x41 [0x42] (by decide) (by decide) (by decide)
     (by decide),
   (read_cursor_advance.2.2.2.2 0xD800 0x41 [0x42] (by decide) (by decide)).2⟩

/-- C10: for every codepoint `cp ≤ 0x10FFFF`, `converter<char>::write` returns `n` and appends
    exactly `n` units (each a byte), where `n` is 1 if `cp ≤ 0x7F`, 2 if `cp ≤ 0x7FF`, 3 if
    `cp ≤ 0xFFFF` and 4 otherwise; when `n > 1` the first unit has the `n`-byte lead pattern
    and each of the other `n - 1` units has top two bits `10`. -/
theorem utf8_write_count_shape (cp : Nat) (out : List Nat) (h : cp ≤ 0x10FFFF) :
    ∃ (u0 : Nat) (others : List Nat),
      converter_char.write cp out
        = (if cp ≤ 0x7F then 1 else if cp ≤ 0x7FF then 2 else if cp ≤ 0xFFFF then 3 else 4,
           out ++ u0 :: others) ∧
      (u0 :: others).length = (converter_char.write cp out).1 ∧
      u0 < 256 ∧
      (1 < (converter_char.write cp out).1 →
        HasLeadPattern (converter_char.write cp out).1 u0) ∧
      ∀ u ∈ others, u >>> 6 = 0b10 := by
  by_cases c1 : cp ≤ 0x7F
  · refine ⟨cp, [], ?_, ?_, by omega, ?_, by simp⟩
    · rw [converter_char.write_one cp out c1, if_pos c1]
    · rw [converter_char.write_one cp out c1]; rfl
    · rw [converter_char.write_one cp out c1]
      intro hlt
      exact absurd hlt (Nat.lt_irrefl 1)
  by_cases c2 : cp ≤ 0x7FF
  · have hw := converter_char.write_two cp out (by omega) c2
    refine ⟨0xC0 + cp / 64, [0x80 + cp % 64], ?_, ?_, by omega, ?_, ?_⟩
    · rw [hw, if_neg c1, if_pos c2]
    · rw [hw]; rfl
    · rw [hw]
      intro _
      refine Or.inl ⟨rfl, ?_⟩
      rw [Nat.shiftRight_eq_div_pow]
      omega
    · intro u hu
      simp only [List.mem_singleton] at hu
      rw [Nat.shiftRight_eq_div_pow, hu]
      omega
  by_cases c3 : cp ≤ 0xFFFF
  · have hw := converter_char.write_three cp out (by omega) c3
    refine ⟨0xE0 + cp / 4096, [0x80 + cp / 64 % 64, 0x80 + cp % 64], ?_, ?_, by omega, ?_, ?_⟩
    · rw [hw, if_neg c1, if_neg c2, if_pos c3]
    · rw [hw]; rfl
    · rw [hw]
      intro _
      refine Or.inr (Or.inl ⟨rfl, ?_⟩)
      rw [Nat.shiftRight_eq_div_pow]
      omega
    · intro u hu
      simp only [List.mem_cons, List.mem_singleton, List.not_mem_nil, or_false] at hu
      rw [Nat.shiftRight_eq_div_pow]
      rcases hu with hu | hu <;> rw [hu] <;> omega
  · have hw := converter_char.write_four cp out (by omega) (by omega)
    refine ⟨0xF0 + cp / 262144, [0x80 + cp / 4096 % 64, 0x80 + cp / 64 % 64, 0x80 + cp % 64],
      ?_, ?_, by omega, ?_, ?_⟩
    · rw [hw, if_neg c1, if_neg c2, if_neg c3]
    · rw [hw]; rfl
    · rw [hw]
      intro _
      refine Or.inr (Or.inr ⟨rfl, ?_⟩)
      rw [Nat.shiftRight_eq_div_pow]
      omega
    · intro u hu
      simp only [List.mem_cons, List.mem_singleton, List.not_mem_nil, or_false] at hu
      rw [Nat.shiftRight_eq_div_pow]
      rcases hu with hu | hu | hu <;> rw [hu] <;> omega

theorem utf8_write_count_shape_witness :
    ∃ (u0 : Nat) (others : List Nat),
      converter_char.write 0x20AC [0x41]
        = (if 0x20AC ≤ 0x7F then 1 else if 0x20AC ≤ 0x7FF then 2
            else if 0x20AC ≤ 0xFFFF then 3 else 4,
           [0x41] ++ u0 :: others) ∧
      (u0 :: others).length = (converter_char.write 0x20AC [0x41]).1 ∧
      u0 < 256 ∧
      (1 < (converter_char.write 0x20AC [0x41]).1 →
        HasLeadPattern (converter_char.write 0x20AC [0x41]).1 u0) ∧
      ∀ u ∈ others, u >>> 6 = 0b10 :=
  utf8_write_count_shape 0x20AC [0x41] (by decide)

theorem utf8_read_value_lt (c0 : Nat) (i1 : List Nat) (cp : Nat) (rest : List Nat)
    (h : converter_char.read (c0 :: i1) = .returned (some cp) rest) : cp < 2147483648 := by
  by_cases h1 : c0 % 256 < 0x80
  · simp only [converter_char.read, h1, if_true, if_false, ReadResult.returned.injEq,
      Option.some.injEq, reduceCtorEq] at h
    omega
  by_cases h2 : c0 % 256 < 0xC0
  · simp only [converter_char.read, h1, h2, if_true, if_false, ReadResult.returned.injEq,
      Option.some.injEq, reduceCtorEq] at h
  by_cases h3 : c0 % 256 < 0xE0
  · rcases i1 with _ | ⟨c1, i2⟩ <;>
      simp only [converter_char.read, h1, h2, h3, if_true, if_false] at h <;>
      (try split_ifs at h) <;>
      first
        | (simp only [ReadResult.returned.injEq, Option.some.injEq, reduceCtorEq, false_and] at h
           done)
        | (simp only [ReadResult.returned.injEq, Option.some.injEq] at h
           simp only [toChar32, Nat.shiftLeft_eq, Nat.shiftRight_eq_div_pow] at *
           omega)
  by_cases h4 : c0 % 256 < 0xF0
  · rcases i1 with _ | ⟨c1, _ | ⟨c2, i3⟩⟩ <;>
      simp only [converter_char.read, h1, h2, h3, h4, if_true, if_false] at h <;>
      (try split_ifs at h) <;>
      first
        | (simp only [ReadResult.returned.injEq, Option.some.injEq, reduceCtorEq, false_and] at h
           done)
        | (simp only [ReadResult.returned.injEq, Option.some.injEq] at h
           simp only [toChar32, Nat.shiftLeft_eq, Nat.shiftRight_eq_div_pow] at *
           omega)
  by_cases h5 : c0 % 256 < 0xF8
  · rcases i1 with _ | ⟨c1, _ | ⟨c2, _ | ⟨c3, i4⟩⟩⟩ <;>
      simp only [converter_char.read, h1, h2, h3, h4, h5, if_true, if_false] at h <;>
      (try split_ifs at h) <;>
      first
        | (simp only [ReadResult.returned.injEq, Option.some.injEq, reduceCtorEq, false_and] at h
           done)
        | (simp only [ReadResult.returned.injEq, Option.some.injEq] at h
           simp only [toChar32, Nat.shiftLeft_eq, Nat.shiftRight_eq_div_pow] at *
           omega)
  by_cases h6 : c0 % 256 < 0xFC
  · rcases i1 with _ | ⟨c1, _ | ⟨c2, _ | ⟨c3, _ | ⟨c4, i5⟩⟩⟩⟩ <;>
      simp only [converter_char.read, h1, h2, h3, h4, h5, h6, if_true, if_false] at h <;>
      (try split_ifs at h) <;>
      first
        | (simp only [ReadResult.returned.injEq, Option.some.injEq, reduceCtorEq, false_and] at h
           done)
        | (simp only [ReadResult.returned.injEq, Option.some.injEq] at h
           simp only [toChar32, Nat.shiftLeft_eq, Nat.shiftRight_eq_div_pow] at *
           omega)
  by_cases h7 : c0 % 256 < 0xFE
  · rcases i1 with _ | ⟨c1, _ | ⟨c2, _ | ⟨c3, _ | ⟨c4, _ | ⟨c5, i6⟩⟩⟩⟩⟩ <;>
      simp only [converter_char.read, h1, h2, h3, h4, h5, h6, h7, if_true, if_false] at h <;>
      (try split_ifs at h) <;>
      first
        | (simp only [ReadResult.returned.injEq, Option.some.injEq, reduceCtorEq, false_and] at h
           done)
        | (simp only [ReadResult.returned.injEq, Option.some.injEq] at h
           simp only [toChar32, Nat.shiftLeft_eq, Nat.shiftRight_eq_div_pow] at *
           omega)
  simp only [converter_char.read, h1, h2, h3, h4, h5, h6, h7, if_true, if_false, ReadResult.returned.injEq,
    reduceCtorEq, false_and] at h

/-- C11 (as stated it fails): `converter<char>::write` does not reject `0x110000`; it returns
    4 and appends four units. -/
theorem utf8_write_0x110000_not_rejected :
    converter_char.write 0x110000 [] = (4, [0xF4, 0x90, 0x80, 0x80]) ∧
    ¬ ((converter_char.write 0x110000 []).1 = 0 ∧ (converter_char.write 0x110000 []).2 = []) := by
  decide

/-- C11 (amended): `converter<char>::write` does not reject the values above `0x10FFFF` that
    the four-byte form can carry: for every `cp` with `0x10FFFF < cp ≤ 0x1FFFFF` it returns 4
    and appends the four units `11110xxx 10xxxxxx 10xxxxxx 10xxxxxx` holding the 21 bits of
    `cp`, from which `converter<char>::read` returns `some cp`. -/
theorem utf8_write_above_range_not_rejected (cp : Nat) (out rest : List Nat)
    (h1 : 0x10FFFF < cp) (h2 : cp ≤ 0x1FFFFF) :
    converter_char.write cp out
      = (4, out ++ [0xF0 + cp / 262144, 0x80 + cp / 4096 % 64, 0x80 + cp / 64 % 64,
                    0x80 + cp % 64]) ∧
    (converter_char.write cp out).1 ≠ 0 ∧
    converter_char.read ((converter_char.write cp []).2 ++ rest) = .returned (some cp) rest := by
  have hw := converter_char.write_four cp out (by omega) (by omega)
  refine ⟨hw, ?_, ?_⟩
  · rw [hw]
    exact Nat.succ_ne_zero 3
  · rw [converter_char.write_four cp [] (by omega) (by omega)]
    show converter_char.read ((0xF0 + cp / 262144) :: (0x80 + cp / 4096 % 64) ::
      (0x80 + cp / 64 % 64) :: (0x80 + cp % 64) :: rest) = _
    rw [converter_char.read_four (0xF0 + cp / 262144) (0x80 + cp / 4096 % 64)
      (0x80 + cp / 64 % 64) (0x80 + cp % 64) rest
      (by omega) (by omega) (by omega) (by omega) (by omega) (by omega) (by omega) (by omega)]
    simp only [ReadResult.returned.injEq, Option.some.injEq, and_true]
    omega

theorem utf8_write_above_range_not_rejected_witness :
    converter_char.write 0x110000 [0x41] = (4, [0x41, 0xF4, 0x90, 0x80, 0x80]) ∧
    converter_char.read ((converter_char.write 0x110000 []).2 ++ [0x42])
      = .returned (some 0x110000) [0x42] :=
  ⟨(utf8_write_above_range_not_rejected 0x110000 [0x41] [0x42] (by decide) (by decide)).1.trans
      (by decide),
   (utf8_write_above_range_not_rejected 0x110000 [0x41] [0x42] (by decide) (by decide)).2.2⟩

/-- C12 (as stated it fails): `converter<char>::read` returns the surrogate `0xD800` for the
    bytes `0xED 0xA0 0x80` and the value `0x110000` for `0xF4 0x90 0x80 0x80`; neither is a
    Unicode scalar value. -/
theorem utf8_read_returns_non_scalar :
    converter_char.read [0xED, 0xA0, 0x80] = .returned (some 0xD800) [] ∧
    ¬ IsScalar 0xD800 ∧
    converter_char.read [0xF4, 0x90, 0x80, 0x80] = .returned (some 0x110000) [] ∧
    ¬ IsScalar 0x110000 := by
  decide

/-- C12 (amended): `converter<char>::read` does not validate the scalar range.  For every byte
    sequence, if it returns `some cp` then `cp ≤ 0x7FFFFFFF`; the three-byte encodings of
    surrogates (`0xED`, `0xA0..0xBF`, `0x80..0xBF`) decode to the surrogate value, and
    `0xF4 0x90 0x80 0x80` decodes to `0x110000`. -/
theorem utf8_read_no_scalar_validation (input : List Nat) (cp : Nat) (rest : List Nat)
    (h : converter_char.read input = .returned (some cp) rest) :
    cp ≤ 0x7FFFFFFF ∧
    (∀ (b1 b2 : Nat) (tail : List Nat), 0xA0 ≤ b1 ∧ b1 ≤ 0xBF → 0x80 ≤ b2 ∧ b2 ≤ 0xBF →
      converter_char.read (0xED :: b1 :: b2 :: tail)
        = .returned (some (0xD000 + (b1 - 0x80) * 64 + (b2 - 0x80))) tail ∧
      0xD800 ≤ 0xD000 + (b1 - 0x80) * 64 + (b2 - 0x80) ∧
      0xD000 + (b1 - 0x80) * 64 + (b2 - 0x80) ≤ 0xDFFF) ∧
    converter_char.read [0xF4, 0x90, 0x80, 0x80] = .returned (some 0x110000) [] := by
  refine ⟨?_, ?_, by decide⟩
  · cases input with
    | nil => simp [converter_char.read] at h
    | cons c0 i1 =>
      have := utf8_read_value_lt c0 i1 cp rest h
      omega
  · rintro b1 b2 tail ⟨h1, h2⟩ ⟨h3, h4⟩
    rw [converter_char.read_three 0xED b1 b2 tail (by decide) (by decide) (by omega) (by omega)
      h3 (by omega)]
    exact ⟨rfl, by omega, by omega⟩

theorem utf8_read_no_scalar_validation_witness :
    (0x7FFFFFFF : Nat) ≤ 0x7FFFFFFF ∧
    converter_char.read [0xED, 0xBF, 0xBF, 0x41] = .returned (some 0xDFFF) [0x41] := by
  have h := utf8_read_no_scalar_validation [0xFD, 0xBF, 0xBF, 0xBF, 0xBF, 0xBF] 0x7FFFFFFF []
    (by decide)
  refine ⟨h.1, ?_⟩
  rw [(h.2.1 0xBF 0xBF [0x41] (by decide) (by decide)).1]

theorem convert_identity_eq (s t : List Nat) : detail.convert_identity s t = t ++ s := by
  unfold detail.convert_identity
  induction s generalizing t with
  | nil => simp
  | cons c s ih => simp [List.foldl_cons, ih]

/-- C13: for each of the 8-, 16- and 32-bit encodings and every valid input (the encoding of
    a list of Unicode scalar values), the unit-for-unit copy that `convert_to` performs when
    source and target unit types are identical gives the same output as the read-then-write
    loop run with the same converter as source and target. -/
theorem identity_fast_path_agrees (E : CharType) (cps : List Nat)
    (h : ∀ cp ∈ cps, IsScalar cp) :
    convert_to E E (encode E cps)
      = convertLoop E E (encode E cps).length (encode E cps) [] ∧
    convert_to E E (encode E cps) = .done (detail.convert_identity (encode E cps) []) ∧
    detail.convert_identity (encode E cps) [] = encode E cps := by
  have hloop := convertLoop_encode E E cps h (encode E cps).length [] (le_refl _)
  have hid := convert_identity_eq (encode E cps) []
  rw [List.nil_append] at hid hloop
  refine ⟨?_, ?_, hid⟩
  · rw [hloop]
    simp [convert_to, hid]
  · simp [convert_to]

theorem identity_fast_path_agrees_witness :
    convert_to .char .char (encode .char [0x41, 0xE9, 0x20AC, 0x1F600])
      = convertLoop .char .char (encode .char [0x41, 0xE9, 0x20AC, 0x1F600]).length
          (encode .char [0x41, 0xE9, 0x20AC, 0x1F600]) [] ∧
    convert_to .char16_t .char16_t (encode .char16_t [0x1F600])
      = convertLoop .char16_t .char16_t (encode .char16_t [0x1F600]).length
          (encode .char16_t [0x1F600]) [] :=
  ⟨(identity_fast_path_agrees .char [0x41, 0xE9, 0x20AC, 0x1F600] (by decide)).1,
   (identity_fast_path_agrees .char16_t [0x1F600] (by decide)).1⟩

/-- C14 (the code at the failing input): with a 4-byte `wchar_t`, `converter<wchar_t>::read`
    is not `converter<char32_t>::read`: its body calls `converter<char32_t>::write` with one
    argument and does not compile.  `converter<wchar_t>::write`, and `read` with a 2-byte
    `wchar_t`, delegate as described. -/
theorem wchar_read_four_byte_does_not_delegate :
    converter_wchar_t.read 4 [0x41] = none ∧
    converter_wchar_t.read 4 [0x41] ≠ some (converter_char32_t.read [0x41]) ∧
    (∀ input, converter_wchar_t.read 4 input ≠ some (converter_char32_t.read input)) ∧
    (∀ input, converter_wchar_t.read 2 input = some (converter_char16_t.read input)) ∧
    (∀ cp out, converter_wchar_t.write 2 cp out = converter_char16_t.write cp out) ∧
    (∀ cp out, converter_wchar_t.write 4 cp out = converter_char32_t.write cp out) := by
  refine ⟨rfl, by decide, ?_, ?_, ?_, ?_⟩
  · intro input
    simp [converter_wchar_t.read]
  · intro input
    simp [converter_wchar_t.read]
  · intro cp out
    simp [converter_wchar_t.write]
  · intro cp out
    simp [converter_wchar_t.write]

/-! ## Properties of the table lookup and of the generator -/

/-- C15: for every input `cp` and every valid table (blocks not empty, `stage1` entries valid
    block offsets into `stage2`, `stage2` entries valid indices into `stage3`), `lookup`
    returns a record.  When `cp / block_size` is not below the length of `stage1` the result
    is the default record whatever `stage2` and `stage3` hold; otherwise it is
    `stage3[stage2[stage1[cp / block_size] + cp % block_size]]`. -/
theorem lookup_total (t : tables_view) (default_record : codepoint_properties) (cp : Nat)
    (hv : t.Valid) :
    (∃ r, lookup t default_record cp = some r) ∧
    (t.stage1.length ≤ cp / t.block_size →
      lookup t default_record cp = some default_record ∧
      ∀ s2 s3, lookup ⟨t.block_size, t.stage1, s2, s3⟩ default_record cp
        = some default_record) ∧
    (cp / t.block_size < t.stage1.length →
      ∃ offset index r,
        t.stage1[cp / t.block_size]? = some offset ∧
        t.stage2[offset + cp % t.block_size]? = some index ∧
        t.stage3[index]? = some r ∧
        lookup t default_record cp = some r) := by
  obtain ⟨hbs, h1, h2⟩ := hv
  have inner : cp / t.block_size < t.stage1.length →
      ∃ offset index r,
        t.stage1[cp / t.block_size]? = some offset ∧
        t.stage2[offset + cp % t.block_size]? = some index ∧
        t.stage3[index]? = some r ∧
        lookup t default_record cp = some r := by
    intro hlt
    have e1 : t.stage1[cp / t.block_size]? = some (t.stage1[cp / t.block_size]) :=
      List.getElem?_eq_getElem hlt
    have hoff := h1 _ (List.getElem_mem hlt)
    have hmod : cp % t.block_size < t.block_size := Nat.mod_lt _ hbs
    have hlt2 : t.stage1[cp / t.block_size] + cp % t.block_size < t.stage2.length := by omega
    have e2 := List.getElem?_eq_getElem hlt2
    have hidx := h2 _ (List.getElem_mem hlt2)
    have e3 := List.getElem?_eq_getElem hidx
    refine ⟨_, _, _, e1, e2, e3, ?_⟩
    simp only [lookup, if_pos hlt, e1, e2, e3]
  have outer : ∀ s2 s3, t.stage1.length ≤ cp / t.block_size →
      lookup ⟨t.block_size, t.stage1, s2, s3⟩ default_record cp = some default_record := by
    intro s2 s3 hge
    have hn : ¬ cp / t.block_size < t.stage1.length := by omega
    simp only [lookup, if_neg hn]
  refine ⟨?_, fun hge => ⟨outer t.stage2 t.stage3 hge, fun s2 s3 => outer s2 s3 hge⟩, inner⟩
  by_cases hlt : cp / t.block_size < t.stage1.length
  · obtain ⟨_, _, r, _, _, _, hr⟩ := inner hlt
    exact ⟨r, hr⟩
  · exact ⟨default_record, outer t.stage2 t.stage3 (by omega)⟩

theorem lookup_total_witness :
    (∃ r, lookup ⟨2, [0, 2], [0, 1, 1, 0], [⟨0, 0, 0, 0, 0, 0, 0, 0⟩, ⟨1, 0, 0, 0, 0, 0, 0, 0⟩]⟩
        ⟨9, 0, 0, 0, 0, 0, 0, 0⟩ 0x110000 = some r) ∧
    lookup ⟨2, [0, 2], [0, 1, 1, 0], [⟨0, 0, 0, 0, 0, 0, 0, 0⟩, ⟨1, 0, 0, 0, 0, 0, 0, 0⟩]⟩
        ⟨9, 0, 0, 0, 0, 0, 0, 0⟩ 0x110000 = some ⟨9, 0, 0, 0, 0, 0, 0, 0⟩ :=
  have hv : tables_view.Valid
      ⟨2, [0, 2], [0, 1, 1, 0], [⟨0, 0, 0, 0, 0, 0, 0, 0⟩, ⟨1, 0, 0, 0, 0, 0, 0, 0⟩]⟩ := by
    unfold tables_view.Valid
    decide
  ⟨(lookup_total _ ⟨9, 0, 0, 0, 0, 0, 0, 0⟩ 0x110000 hv).1,
   ((lookup_total _ ⟨9, 0, 0, 0, 0, 0, 0, 0⟩ 0x110000 hv).2.1 (by decide)).1⟩

theorem max_element_foldl_spec (rest : List Nat) (first : Nat) :
    (rest.foldl (fun largest x => if largest < x then x else largest) first ∈ first :: rest) ∧
    ∀ v ∈ first :: rest,
      v ≤ rest.foldl (fun largest x => if largest < x then x else largest) first := by
  induction rest generalizing first with
  | nil => simp
  | cons x rest ih =>
    simp only [List.foldl_cons]
    by_cases hc : first < x
    · simp only [if_pos hc]
      obtain ⟨hmem, hle⟩ := ih x
      refine ⟨List.mem_cons_of_mem _ hmem, ?_⟩
      intro v hv
      rcases List.mem_cons.mp hv with rfl | hv
      · have := hle x (List.mem_cons_self _ _)
        omega
      · exact hle v hv
    · simp only [if_neg hc]
      obtain ⟨hmem, hle⟩ := ih first
      constructor
      · rcases List.mem_cons.mp hmem with hm | hm
        · rw [hm]
          exact List.mem_cons_self _ _
        · exact List.mem_cons_of_mem _ (List.mem_cons_of_mem _ hm)
      · intro v hv
        rcases List.mem_cons.mp hv with rfl | hv
        · exact hle v (List.mem_cons_self _ _)
        · rcases List.mem_cons.mp hv with rfl | hv
          · have := hle first (List.mem_cons_self _ _)
            omega
          · exact hle v (List.mem_cons_of_mem _ hv)

theorem bitWidth_uint8_t : bitWidth ("uint8_t") = 8 := by decide
theorem bitWidth_uint16_t : bitWidth ("uint16_t") = 16 := by decide
theorem bitWidth_uint32_t : bitWidth ("uint32_t") = 32 := by decide
theorem bitWidth_uint64_t : bitWidth ("uint64_t") = 64 := by decide

/-- C16: for every non-empty vector of unsigned values (of at most 64 bits) with maximum `m`,
    `minimum_uint_t` returns `uint8_t` if `m ≤ 0xFF`, `uint16_t` if `0xFF < m ≤ 0xFFFF`,
    `uint32_t` if `0xFFFF < m ≤ 0xFFFFFFFF` and `uint64_t` otherwise; every element fits the
    named width, and no narrower width among 8, 16, 32, 64 bits holds every element. -/
theorem minimum_uint_t_smallest_fit (values : List Nat) (hne : values ≠ [])
    (h64 : ∀ v ∈ values, v < 2 ^ 64) :
    ∃ m name, max_element values = some m ∧ m ∈ values ∧ (∀ v ∈ values, v ≤ m) ∧
      minimum_uint_t values = some name ∧
      name = (if m ≤ 0xFF then ("uint8_t") else if m ≤ 0xFFFF then ("uint16_t")
              else if m ≤ 0xFFFFFFFF then ("uint32_t") else ("uint64_t")) ∧
      (∀ v ∈ values, v < 2 ^ bitWidth name) ∧
      (∀ w ∈ [8, 16, 32, 64], (∀ v ∈ values, v < 2 ^ w) → bitWidth name ≤ w) := by
  obtain ⟨first, rest, rfl⟩ := List.exists_cons_of_ne_nil hne
  obtain ⟨hmem, hle⟩ := max_element_foldl_spec rest first
  generalize hm : rest.foldl (fun largest x => if largest < x then x else largest) first = m
    at hmem hle
  have hmax : max_element (first :: rest) = some m := by
    simp only [max_element, hm]
  have hm64 := h64 m hmem
  refine ⟨m, _, hmax, hmem, hle, ?_, rfl, ?_, ?_⟩
  · simp only [minimum_uint_t, hmax]
    split_ifs <;> rfl
  · intro v hv
    have := hle v hv
    split_ifs <;>
      simp only [bitWidth_uint8_t, bitWidth_uint16_t, bitWidth_uint32_t, bitWidth_uint64_t] <;>
      norm_num at hm64 ⊢ <;> omega
  · intro w hw hall
    have hmw := hall m hmem
    simp only [List.mem_cons, List.mem_singleton, List.not_mem_nil, or_false] at hw
    rcases hw with rfl | rfl | rfl | rfl <;> split_ifs <;>
      simp only [bitWidth_uint8_t, bitWidth_uint16_t, bitWidth_uint32_t, bitWidth_uint64_t] <;>
      norm_num at hmw ⊢ <;> omega

theorem minimum_uint_t_smallest_fit_witness :
    ∃ m name, max_element [3, 70000, 12] = some m ∧ m ∈ [3, 70000, 12] ∧
      (∀ v ∈ [3, 70000, 12], v ≤ m) ∧
      minimum_uint_t [3, 70000, 12] = some name ∧
      name = (if m ≤ 0xFF then ("uint8_t") else if m ≤ 0xFFFF then ("uint16_t")
              else if m ≤ 0xFFFFFFFF then ("uint32_t") else ("uint64_t")) ∧
      (∀ v ∈ [3, 70000, 12], v < 2 ^ bitWidth name) ∧
      (∀ w ∈ [8, 16, 32, 64], (∀ v ∈ [3, 70000, 12], v < 2 ^ w) → bitWidth name ≤ w) :=
  minimum_uint_t_smallest_fit [3, 70000, 12] (by decide) (by decide)

/-! ## Further properties of the 16-bit converter and of the loop -/

theorem utf16_read_some_inv (input : List Nat) (cp : Nat) (rest : List Nat)
    (h : converter_char16_t.read input = .returned (some cp) rest) :
    (input = cp :: rest ∧ (cp < 0xD800 ∨ 0xE000 ≤ cp)) ∨
    (∃ u0 u1, input = u0 :: u1 :: rest ∧ 0xD800 ≤ u0 ∧ u0 ≤ 0xDBFF ∧ 0xDC00 ≤ u1 ∧
      u1 ≤ 0xDFFF ∧ cp = 0x10000 + (u0 - 0xD800) * 1024 + (u1 - 0xDC00)) := by
  rcases input with _ | ⟨u0, i1⟩
  · simp [converter_char16_t.read] at h
  by_cases c1 : u0 < 0xD800
  · simp only [converter_char16_t.read, if_pos c1, ReadResult.returned.injEq,
      Option.some.injEq] at h
    obtain ⟨rfl, rfl⟩ := h
    exact Or.inl ⟨rfl, Or.inl c1⟩
  by_cases c2 : u0 < 0xDC00
  · rcases i1 with _ | ⟨u1, i2⟩
    · simp [converter_char16_t.read, c1, c2] at h
    · by_cases c3 : 0xDC00 ≤ u1 ∧ u1 ≤ 0xDFFF
      · rw [converter_char16_t.read_pair u0 u1 i2 (by omega) (by omega) c3.1 c3.2] at h
        simp only [ReadResult.returned.injEq, Option.some.injEq] at h
        obtain ⟨hcp, rfl⟩ := h
        exact Or.inr ⟨u0, u1, rfl, by omega, by omega, c3.1, c3.2, hcp.symm⟩
      · rw [converter_char16_t.read_unpaired u0 u1 i2 (by omega) (by omega) c3] at h
        simp at h
  by_cases c3 : u0 < 0xE000
  · rw [converter_char16_t.read_low_first u0 i1 (by omega) (by omega)] at h
    simp at h
  · rw [converter_char16_t.read_bmp u0 i1 (Or.inr (by omega))] at h
    simp only [ReadResult.returned.injEq, Option.some.injEq] at h
    obtain ⟨rfl, rfl⟩ := h
    exact Or.inl ⟨rfl, Or.inr (by omega)⟩

/-- C17: for every sequence of 16-bit units, if `converter<char16_t>::read` returns `some cp`
    then `cp` is a Unicode scalar value (at most `0x10FFFF`, not a surrogate), and
    `cp ≥ 0x10000` exactly when two units were consumed. -/
theorem utf16_read_yields_scalar (input : List Nat) (cp : Nat) (rest : List Nat)
    (hu : ∀ u ∈ input, u < 65536)
    (h : converter_char16_t.read input = .returned (some cp) rest) :
    IsScalar cp ∧
    (0x10000 ≤ cp ↔ unitsConsumed input (converter_char16_t.read input) = 2) ∧
    (cp < 0x10000 ↔ unitsConsumed input (converter_char16_t.read input) = 1) := by
  rw [h]
  rcases utf16_read_some_inv input cp rest h with ⟨hin, hr⟩ | ⟨u0, u1, hin, h1, h2, h3, h4, hcp⟩
  · have hlt := hu cp (by rw [hin]; exact List.mem_cons_self _ _)
    simp only [hin, unitsConsumed, List.length_cons, IsScalar]
    omega
  · simp only [hin, unitsConsumed, List.length_cons, IsScalar]
    omega

theorem utf16_read_yields_scalar_witness :
    IsScalar 0x10FFFF ∧
    (0x10000 ≤ 0x10FFFF ↔
      unitsConsumed [0xDBFF, 0xDFFF, 0x41] (converter_char16_t.read [0xDBFF, 0xDFFF, 0x41]) = 2) ∧
    (0x10FFFF < 0x10000 ↔
      unitsConsumed [0xDBFF, 0xDFFF, 0x41] (converter_char16_t.read [0xDBFF, 0xDFFF, 0x41]) = 1) :=
  utf16_read_yields_scalar [0xDBFF, 0xDFFF, 0x41] 0x10FFFF [0x41] (by decide) (by decide)

theorem utf16_write_of_read (input : List Nat) (cp : Nat) (rest : List Nat)
    (hu : ∀ u ∈ input, u < 65536)
    (h : converter_char16_t.read input = .returned (some cp) rest) :
    input = (converter_char16_t.write cp []).2 ++ rest ∧
    (converter_char16_t.write cp []).1 = (converter_char16_t.write cp []).2.length ∧
    (converter_char16_t.write cp []).1 = unitsConsumed input (.returned (some cp) rest) := by
  rcases utf16_read_some_inv input cp rest h with ⟨hin, hr⟩ | ⟨u0, u1, hin, h1, h2, h3, h4, hcp⟩
  · have hlt := hu cp (by rw [hin]; exact List.mem_cons_self _ _)
    rw [converter_char16_t.write_bmp cp [] hlt (by omega), hin]
    simp only [unitsConsumed, List.length_cons, List.nil_append,
      List.cons_append, List.length_nil, true_and]
    omega
  · rw [converter_char16_t.write_pair cp [] (by omega) (by omega), hin]
    have e0 : 0xD7C0 + cp / 1024 = u0 := by omega
    have e1 : 0xDC00 + cp % 1024 = u1 := by omega
    simp only [e0, e1, unitsConsumed, List.length_cons, List.nil_append,
      List.cons_append, List.length_nil, true_and]
    omega

/-- C18: for every sequence of 16-bit units on which `converter<char16_t>::read` returns
    `some cp` after consuming `k` units, `converter<char16_t>::write` of `cp` returns `k` and
    appends exactly those `k` units; hence two accepted sequences that decode to the same
    codepoint start with the same units. -/
theorem utf16_decoding_canonical (input : List Nat) (cp : Nat) (rest : List Nat)
    (hu : ∀ u ∈ input, u < 65536)
    (h : converter_char16_t.read input = .returned (some cp) rest) :
    (∃ consumed, input = consumed ++ rest ∧
      consumed.length = unitsConsumed input (converter_char16_t.read input) ∧
      ∀ out, converter_char16_t.write cp out = (consumed.length, out ++ consumed)) ∧
    (∀ (input2 rest2 : List Nat), (∀ u ∈ input2, u < 65536) →
      converter_char16_t.read input2 = .returned (some cp) rest2 →
      ∃ consumed, input = consumed ++ rest ∧ input2 = consumed ++ rest2) := by
  obtain ⟨hin, hlen, hcons⟩ := utf16_write_of_read input cp rest hu h
  constructor
  · refine ⟨(converter_char16_t.write cp []).2, hin, ?_, ?_⟩
    · rw [h, ← hcons, hlen]
    · intro out
      have := write_eq_append .char16_t cp out
      simp only [write] at this
      rw [this, hlen]
  · intro input2 rest2 hu2 h2
    obtain ⟨hin2, -, -⟩ := utf16_write_of_read input2 cp rest2 hu2 h2
    exact ⟨(converter_char16_t.write cp []).2, hin, hin2⟩

theorem utf16_decoding_canonical_witness :
    ∃ consumed, [0xD83D, 0xDE00, 0x41] = consumed ++ [0x41] ∧
      consumed.length
        = unitsConsumed [0xD83D, 0xDE00, 0x41] (converter_char16_t.read [0xD83D, 0xDE00, 0x41]) ∧
      ∀ out, converter_char16_t.write 0x1F600 out = (consumed.length, out ++ consumed) :=
  (utf16_decoding_canonical [0xD83D, 0xDE00, 0x41] 0x1F600 [0x41] (by decide) (by decide)).1

theorem convertLoop_nil (S T : CharType) (fuel : Nat) (out : List Nat) :
    convertLoop S T fuel [] out = .done out := by
  cases fuel <;> rfl

theorem convertLoop_fuel_irrelevant (S T : CharType) :
    ∀ (fuel fuel2 : Nat) (input out : List Nat), input.length ≤ fuel → input.length ≤ fuel2 →
      convertLoop S T fuel input out = convertLoop S T fuel2 input out := by
  intro fuel
  induction fuel with
  | zero =>
    intro fuel2 input out h1 _
    have : input = [] := List.eq_nil_of_length_eq_zero (by omega)
    subst this
    rw [convertLoop_nil, convertLoop_nil]
  | succ f ih =>
    intro fuel2 input out h1 h2
    rcases input with _ | ⟨c, i⟩
    · rw [convertLoop_nil, convertLoop_nil]
    · obtain ⟨f2, rfl⟩ : ∃ f2, fuel2 = f2 + 1 := ⟨fuel2 - 1, by
        simp only [List.length_cons] at h2
        omega⟩
      have hcur := read_cursor_lt S (c :: i) (by simp)
      rw [convertLoop_succ_cons, convertLoop_succ_cons]
      simp only [List.length_cons] at h1 h2 hcur
      cases hr : read S (c :: i) with
      | returned v i2 =>
        have hlt := hcur i2 (by rw [hr]; rfl)
        cases v with
        | none => exact ih f2 i2 out (by omega) (by omega)
        | some cp => exact ih f2 i2 _ (by omega) (by omega)
      | thrown i2 => rfl
      | pastEnd => rfl

theorem convertLoop_ne_outOfFuel (S T : CharType) :
    ∀ (fuel : Nat) (input out : List Nat), input.length ≤ fuel →
      convertLoop S T fuel input out ≠ .outOfFuel := by
  intro fuel
  induction fuel with
  | zero =>
    intro input out h1
    have : input = [] := List.eq_nil_of_length_eq_zero (by omega)
    subst this
    rw [convertLoop_nil]
    simp
  | succ f ih =>
    intro input out h1
    rcases input with _ | ⟨c, i⟩
    · rw [convertLoop_nil]
      simp
    · have hcur := read_cursor_lt S (c :: i) (by simp)
      rw [convertLoop_succ_cons]
      simp only [List.length_cons] at h1 hcur
      cases hr : read S (c :: i) with
      | returned v i2 =>
        have hlt := hcur i2 (by rw [hr]; rfl)
        cases v with
        | none => exact ih i2 out (by omega)
        | some cp => exact ih i2 _ (by omega)
      | thrown i2 => simp
      | pastEnd => simp

theorem encode_append (E : CharType) (a b : List Nat) :
    encode E (a ++ b) = encode E a ++ encode E b := by
  induction a with
  | nil => simp [encode_nil]
  | cons cp a ih => rw [List.cons_append, encode_cons, encode_cons, ih, List.append_assoc]

theorem convertLoop_encode_append (S T : CharType) (pre suf : List Nat)
    (h : ∀ cp ∈ pre, IsScalar cp) :
    ∀ (fuel : Nat) (out : List Nat), (encode S (pre ++ suf)).length ≤ fuel →
      convertLoop S T fuel (encode S (pre ++ suf)) out
        = convertLoop S T (encode S suf).length (encode S suf) (out ++ encode T pre) := by
  induction pre with
  | nil =>
    intro fuel out hf
    rw [List.nil_append] at hf ⊢
    rw [encode_nil, List.append_nil]
    exact convertLoop_fuel_irrelevant S T fuel _ _ out hf (le_refl _)
  | cons cp pre ih =>
    intro fuel out hf
    have hcp : IsScalar cp := h cp (List.mem_cons_self _ _)
    have hpos := write_scalar_pos S cp hcp
    have hlen := write_length S cp
    have hrd := read_write_scalar S cp (encode S (pre ++ suf)) hcp
    rw [List.cons_append, encode_cons] at hf ⊢
    rw [List.length_append] at hf
    obtain ⟨f, rfl⟩ : ∃ f, fuel = f + 1 := ⟨fuel - 1, by omega⟩
    cases hw : (write S cp []).2 with
    | nil => rw [hw] at hlen; simp at hlen; omega
    | cons u us =>
      rw [hw] at hrd hf
      rw [List.cons_append] at hrd
      rw [List.cons_append, convertLoop_succ_cons, hrd]
      simp only []
      rw [ih (fun c hc => h c (List.mem_cons_of_mem _ hc)) f _ (by simp at hf; omega)]
      rw [write_eq_append T cp out, encode_cons, List.append_assoc]

/-- C19: on an input that is the encoding of a list of Unicode scalar values, the loop of
    `convert_to` never dereferences a unit outside the input: it ends normally, with the
    cursor on the end of the input, and each iteration starts with the cursor on the first
    unit of a codepoint, where `read` returns that codepoint and leaves the cursor on the
    first unit of the next one (or on the end). -/
theorem reads_stay_in_bounds (S T : CharType) (cps : List Nat)
    (h : ∀ cp ∈ cps, IsScalar cp) :
    convertLoop S T (encode S cps).length (encode S cps) [] = .done (encode T cps) ∧
    (∀ out, convertLoop S T (encode S cps).length (encode S cps) [] ≠ .pastEnd out) ∧
    (S ≠ T → convert_to T S (encode S cps) = .done (encode T cps)) ∧
    (∀ (pre : List Nat) (cp : Nat) (post : List Nat), cps = pre ++ cp :: post →
      convertLoop S T (encode S cps).length (encode S cps) []
        = convertLoop S T (encode S (cp :: post)).length (encode S (cp :: post))
            (encode T pre) ∧
      read S (encode S (cp :: post)) = .returned (some cp) (encode S post) ∧
      read S (encode S (cp :: post)) ≠ .pastEnd ∧
      ∃ consumed, consumed ≠ [] ∧ encode S (cp :: post) = consumed ++ encode S post) := by
  have hdone := convertLoop_encode S T cps h (encode S cps).length [] (le_refl _)
  rw [List.nil_append] at hdone
  refine ⟨hdone, ?_, ?_, ?_⟩
  · intro out
    rw [hdone]
    simp
  · intro hne
    simp only [convert_to, if_neg hne]
    exact hdone
  · intro pre cp post hsplit
    have hpre : ∀ c ∈ pre, IsScalar c := fun c hc => h c (by
      rw [hsplit]
      exact List.mem_append_left _ hc)
    have hcp : IsScalar cp := h cp (by
      rw [hsplit]
      exact List.mem_append_right _ (List.mem_cons_self _ _))
    have hrd := read_write_scalar S cp (encode S post) hcp
    rw [← encode_cons] at hrd
    refine ⟨?_, hrd, ?_, (write S cp []).2, ?_, encode_cons S cp post⟩
    · have := convertLoop_encode_append S T pre (cp :: post) hpre
        (encode S (pre ++ cp :: post)).length [] (le_refl _)
      rw [List.nil_append] at this
      rw [hsplit]
      exact this
    · rw [hrd]
      simp
    · intro hnil
      have h1 := write_scalar_pos S cp hcp
      have h2 := write_length S cp
      rw [hnil] at h2
      simp at h2
      omega

theorem reads_stay_in_bounds_witness :
    convertLoop .char .char16_t (encode .char [0x41, 0x20AC, 0x1F600]).length
        (encode .char [0x41, 0x20AC, 0x1F600]) [] = .done (encode .char16_t [0x41, 0x20AC, 0x1F600]) ∧
    read .char (encode .char (0x20AC :: [0x1F600]))
      = .returned (some 0x20AC) (encode .char [0x1F600]) :=
  ⟨(reads_stay_in_bounds .char .char16_t [0x41, 0x20AC, 0x1F600] (by decide)).1,
   ((reads_stay_in_bounds .char .char16_t [0x41, 0x20AC, 0x1F600] (by decide)).2.2.2
      [0x41] 0x20AC [0x1F600] rfl).2.1⟩

/-- C20 (as stated it fails): on the one-byte input `0xC3` the first call of `read` runs past
    the end of the input, so the loop of `convert_to` reaches neither its exit condition nor
    an exception. -/
theorem convert_loop_overruns_truncated_input :
    read .char [0xC3] = .pastEnd ∧
    convertLoop .char .char16_t [0xC3].length [0xC3] [] = .pastEnd [] ∧
    convert_to .char16_t .char [0xC3] = .pastEnd [] ∧
    ¬ (convert_to .char16_t .char [0xC3] = .done [] ∨
       convert_to .char16_t .char [0xC3] = .thrown []) := by
  decide

/-- C20 (amended): for every finite input of `n` units on which no call of `read` runs past
    the end of the input, the loop of `convert_to` performs at most `n` iterations and then
    ends, normally or through the exception of `read`; more iterations allowed change
    nothing, and every call of `read` on a non-empty cursor leaves strictly fewer remaining
    units. -/
theorem convert_loop_terminates (S T : CharType) (input out : List Nat) (fuel : Nat)
    (hfuel : input.length ≤ fuel)
    (hin : ∀ o, convertLoop S T input.length input out ≠ .pastEnd o) :
    convertLoop S T input.length input out ≠ .outOfFuel ∧
    (∃ o, convertLoop S T input.length input out = .done o ∨
          convertLoop S T input.length input out = .thrown o) ∧
    convertLoop S T fuel input out = convertLoop S T input.length input out ∧
    (input ≠ [] →
      1 ≤ unitsConsumed input (read S input) ∧
      ∀ c, (read S input).cursor? = some c → c.length < input.length) := by
  have hne := convertLoop_ne_outOfFuel S T input.length input out (le_refl _)
  refine ⟨hne, ?_, convertLoop_fuel_irrelevant S T fuel _ input out hfuel (le_refl _),
    fun h => ⟨read_consumes_one S input h, read_cursor_lt S input h⟩⟩
  cases hres : convertLoop S T input.length input out with
  | done o => exact ⟨o, Or.inl rfl⟩
  | thrown o => exact ⟨o, Or.inr rfl⟩
  | pastEnd o => exact absurd hres (hin o)
  | outOfFuel => exact absurd hres hne

theorem convert_loop_terminates_witness :
    convertLoop .char .char16_t [0xC3, 0xA9, 0xFF, 0x41].length [0xC3, 0xA9, 0xFF, 0x41] []
      ≠ .outOfFuel ∧
    convertLoop .char .char16_t 9 [0xC3, 0xA9, 0xFF, 0x41] []
      = convertLoop .char .char16_t [0xC3, 0xA9, 0xFF, 0x41].length [0xC3, 0xA9, 0xFF, 0x41] [] :=
  have hin : ∀ o, convertLoop .char .char16_t [0xC3, 0xA9, 0xFF, 0x41].length
      [0xC3, 0xA9, 0xFF, 0x41] [] ≠ .pastEnd o := by
    intro o
    rw [show convertLoop .char .char16_t [0xC3, 0xA9, 0xFF, 0x41].length
      [0xC3, 0xA9, 0xFF, 0x41] [] = .done [0xE9, 0x41] from by decide]
    simp
  ⟨(convert_loop_terminates .char .char16_t [0xC3, 0xA9, 0xFF, 0x41] [] 9 (by decide) hin).1,
   (convert_loop_terminates .char .char16_t [0xC3, 0xA9, 0xFF, 0x41] [] 9 (by decide) hin).2.2.1⟩

end unicode
